import Mathlib

/-!
Shallow embedding of the card-game module: card and deck values, the poker
hand evaluator (the four analysis passes of `analyse_poker_hand`) and the
hand ranker (`order_hands`), together with proofs of the specification's
claims about them.

Python's stable `sorted(..., key = k, reverse = True)` is modelled by
`pySorted` with the strict comparator `fun a b => k b < k a` (ties keep
their input order, as CPython guarantees).  Fallible operations - list
indexing, popping from an empty list, the five-of-a-kind `ValueError`,
iterating the kickers of a hand that has none - are modelled with
`Except String`.
-/

/-- A playing card: `number` is the rank 1-13 (1 is the ace), `suit` a
suit name.  Card identity is the pair (rank, suit). -/
structure Card where
  number : Nat
  suit : String
deriving DecidableEq

/-- Comparison value of a card: the ace (rank 1) counts as 14, every
other rank as itself. -/
def Card.points (c : Card) : Nat :=
  if c.number ≠ 1 then c.number else 14

/-- Display name of a card rank; 1 and 14 are both rendered "Ace". -/
def num_conv (number : Nat) (plural : Bool) : String :=
  let plural_s := if plural then "s" else ""
  if number = 1 ∨ number = 14 then "Ace" ++ plural_s
  else if number = 11 then "Jack" ++ plural_s
  else if number = 12 then "Queen" ++ plural_s
  else if number = 13 then "King" ++ plural_s
  else toString number ++ plural_s

/-- Textual rendering of a card, `"<RankName> of <suit>s"`.  The source
uses these strings for card identity in set-difference operations. -/
def cardStr (c : Card) : String :=
  num_conv c.number false ++ " of " ++ c.suit ++ "s"

/-- Secondary component of a hand score: a plain integer for most
categories, an ordered rank pair for two pairs and full houses. -/
inductive Sec where
  | scalar : Nat → Sec
  | pair : Nat → Nat → Sec
deriving DecidableEq

/-- Result of evaluating a hand.  The source also stores `sub_hands`,
the lesser hands a combination hand was built from; that field is only
read when formatting reports, never in scoring or ranking, and is not
modelled. -/
structure PokerHand where
  description : String
  score : Nat × Sec
  hand_cards : List Card
  kickers : Option (List Card)
deriving DecidableEq

deriving instance DecidableEq for Except

/-- Stable insertion used by `pySorted`: `a` is placed before the first
element it strictly precedes, hence after all earlier ties. -/
def insertSorted (lt : α → α → Bool) (a : α) : List α → List α
  | [] => [a]
  | b :: l => if lt a b then a :: b :: l else b :: insertSorted lt a l

/-- Stable sort modelling Python's `sorted`: `lt a b` means `a` must
come strictly before `b`; ties keep their input order. -/
def pySorted (lt : α → α → Bool) (l : List α) : List α :=
  l.foldl (fun acc x => insertSorted lt x acc) []

/-- Lexicographic strict comparison of number tuples, as Python compares
tuples (a strict prefix is smaller than the longer tuple). -/
def listLexLt : List Nat → List Nat → Bool
  | _, [] => false
  | [], _ :: _ => true
  | a :: as, b :: bs =>
    if a < b then true else if b < a then false else listLexLt as bs

/-- Lexicographic strict comparison of rank pairs. -/
def pairLexLt (x y : Nat × Nat) : Bool :=
  if x.1 < y.1 then true else if y.1 < x.1 then false else decide (x.2 < y.2)

/-- Whether a secondary score is a rank pair (the `isinstance(.., tuple)`
check of the source). -/
def secIsPair : Sec → Bool
  | Sec.pair _ _ => true
  | Sec.scalar _ => false

/-- Components of a pair-valued secondary score.  Call sites guard with
`secIsPair`, mirroring the source's `isinstance` dispatch; the scalar
case is unreachable there. -/
def pairKey (h : PokerHand) : Nat × Nat :=
  match h.score.2 with
  | Sec.pair a b => (a, b)
  | Sec.scalar n => (n, n)

/-- Scalar secondary score.  Call sites guard with `secIsPair = false`. -/
def scalarKey (h : PokerHand) : Nat :=
  match h.score.2 with
  | Sec.scalar n => n
  | Sec.pair a _ => a

/-- Points of a hand's kickers, the sort key of the kicker comparison. -/
def kickerPointsList (h : PokerHand) : List Nat :=
  (h.kickers.getD []).map Card.points

/-- The determining-kicker loop of `sort_by_high_cards`: walk the best
hand's kickers, comparing the runner-up's positionwise; the result is
`-1` if they never differ, `i + 1` at the first 0-based difference `i`,
and an index error if the runner-up runs out of kickers first. -/
def detKickerIdx (ks0 ks1 : List Nat) (i : Nat) : Except String Int :=
  match ks0 with
  | [] => Except.ok (-1)
  | k :: ks =>
    match ks1[i]? with
    | none => Except.error "IndexError: list index out of range"
    | some p => if p ≠ k then Except.ok ((i : Int) + 1) else detKickerIdx ks ks1 (i + 1)

/-- Kicker comparison: order the hands by their kicker points
lexicographically descending and record where the top two differ.
Sorting evaluates every hand's kicker tuple, so a hand whose `kickers`
is `None` fails here, as it does in the source. -/
def sort_by_high_cards (hands_to_sort : List PokerHand) : Except String (List PokerHand × Int) :=
  if hands_to_sort.all (fun h => h.kickers.isSome) then
    match pySorted (fun a b => listLexLt (kickerPointsList b) (kickerPointsList a)) hands_to_sort with
    | [] => Except.error "IndexError: list index out of range"
    | h0 :: rest =>
      match kickerPointsList h0 with
      | [] => Except.ok (h0 :: rest, -1)
      | _ :: _ =>
        match rest with
        | [] => Except.error "IndexError: list index out of range"
        | h1 :: _ =>
          match detKickerIdx (kickerPointsList h0) (kickerPointsList h1) 0 with
          | Except.error e => Except.error e
          | Except.ok idx => Except.ok (h0 :: rest, idx)
  else Except.error "TypeError: hand without kickers in kicker comparison"

/-- The kicker-path filter of the source's tuple branch uses as its
predicate a two-element tuple of the two equality checks; a non-empty
tuple is always truthy in Python, so every hand passes the filter
regardless of the two comparisons. -/
def alwaysTruthyPair (_fstEq _sndEq : Bool) : Bool := true

/-- After a kicker comparison the winner is the head of the re-sorted
list. -/
def kickerFallback (filtered : List PokerHand) : Except String (PokerHand × Int) :=
  match sort_by_high_cards filtered with
  | Except.error e => Except.error e
  | Except.ok (ks, ki) =>
    match ks with
    | [] => Except.error "IndexError: list index out of range"
    | w :: _ => Except.ok (w, ki)

/-- `order_hands`, branch for a pair-valued secondary score: sort by the
rank pair descending; if the top two agree on both components, fall
through to the kicker comparison (the filter is the always-truthy tuple
predicate, see `alwaysTruthyPair`). -/
def rankTupleSecondaries (highest_hands : List PokerHand) : Except String (PokerHand × Int) :=
  if highest_hands.all (fun x => secIsPair x.score.2) then
    match pySorted (fun a b => pairLexLt (pairKey b) (pairKey a)) highest_hands with
    | [] => Except.error "IndexError: list index out of range"
    | [s0] => Except.ok (s0, -2)
    | s0 :: s1 :: tl =>
      if (pairKey s0).1 == (pairKey s1).1 && (pairKey s0).2 == (pairKey s1).2 then
        kickerFallback ((s0 :: s1 :: tl).filter
          (fun x => alwaysTruthyPair (decide ((pairKey x).1 = (pairKey s0).1))
            (decide ((pairKey x).2 = (pairKey s0).2))))
      else Except.ok (s0, -2)
  else Except.error "TypeError: secondary scores are not all rank pairs"

/-- `order_hands`, branch for a scalar secondary score: sort by it
descending; if the top two agree, keep only the hands matching the top
secondary score and fall through to the kicker comparison. -/
def rankScalarSecondaries (highest_hands : List PokerHand) : Except String (PokerHand × Int) :=
  if highest_hands.all (fun x => !secIsPair x.score.2) then
    match pySorted (fun a b => scalarKey b < scalarKey a) highest_hands with
    | [] => Except.error "IndexError: list index out of range"
    | [s0] => Except.ok (s0, -2)
    | s0 :: s1 :: tl =>
      if scalarKey s0 == scalarKey s1 then
        kickerFallback ((s0 :: s1 :: tl).filter (fun x => scalarKey x == scalarKey s0))
      else Except.ok (s0, -2)
  else Except.error "TypeError: secondary scores are not all plain integers"

/-- The hand ranker: best hand of a list of `PokerHand`s together with
the determining kicker index (`-2` when the primary and secondary scores
decide, `-1` for a full tie, `i + 1` for a tie broken at kicker `i`). -/
def order_hands (hand_list : List PokerHand) : Except String (PokerHand × Int) :=
  match pySorted (fun a b => b.score.1 < a.score.1) hand_list with
  | [] => Except.error "IndexError: list index out of range"
  | top :: tl =>
    match (top :: tl).filter (fun x => x.score.1 == top.score.1) with
    | [] => Except.error "IndexError: list index out of range"
    | hh0 :: hhtl =>
      match hh0.score.2 with
      | Sec.pair _ _ => rankTupleSecondaries (hh0 :: hhtl)
      | Sec.scalar _ => rankScalarSecondaries (hh0 :: hhtl)

/-- One sweep of the loop that removes a hand card from the working
kicker list: the source pops inside a `for`-loop over the live list, so
after a removal the element that slid into the freed slot is skipped
(never compared).  With distinct card strings this removes exactly the
first string match. -/
def scanRemove (s : String) : List Card → List Card
  | [] => []
  | [c] => if cardStr c = s then [] else [c]
  | c :: d :: ds =>
    if cardStr c = s then d :: scanRemove s ds
    else c :: scanRemove s (d :: ds)

/-- Category data of a rank-group candidate, by group size; a group of
five raises in the source and sizes outside 1-5 fall through the
`if`/`elif` chain producing no candidate. -/
def mkSameNumberHand (card : Card) (hand_cards kickers : List Card) : Option PokerHand :=
  if hand_cards.length == 4 then
    some ⟨"Four of a kind, " ++ num_conv card.number true,
      (8, Sec.scalar card.points), hand_cards, some kickers⟩
  else if hand_cards.length == 3 then
    some ⟨"Three of a kind, " ++ num_conv card.number true,
      (4, Sec.scalar card.points), hand_cards, some kickers⟩
  else if hand_cards.length == 2 then
    some ⟨"Pair, " ++ num_conv card.number true,
      (2, Sec.scalar card.points), hand_cards, some kickers⟩
  else if hand_cards.length == 1 then
    some ⟨num_conv card.number false ++ " high",
      (1, Sec.scalar card.points), hand_cards, some kickers⟩
  else none

/-- Prepend a candidate when the group size produced one. -/
def consOptional (o : Option PokerHand) (l : List PokerHand) : List PokerHand :=
  match o with
  | some ph => ph :: l
  | none => l

/-- The rank-grouping loop: iterate over the hand's cards with a working
copy `uncounted`; a card whose string is still uncounted starts a group
(pop the head of the copy, collect and pop every uncounted card of the
same rank), its kickers being the full hand minus the group, sorted
descending by raw rank `number` (not by points).  An uncounted card is
always the head of the working copy, so the popped head is the card
itself. -/
def sameNumberGo (allCards : List Card) : List Card → List Card → Except String (List PokerHand)
  | [], _ => Except.ok []
  | _card :: restCards, [] => sameNumberGo allCards restCards []
  | card :: restCards, u0 :: uc =>
    if ((u0 :: uc).map cardStr).contains (cardStr card) then
      let matched := uc.filter (fun x => x.number == card.number)
      let hand_cards := card :: matched.reverse
      let temp_kickers := hand_cards.foldl (fun acc hc => scanRemove (cardStr hc) acc) allCards
      let kickers := pySorted (fun a b => b.number < a.number) temp_kickers
      if hand_cards.length == 5 then
        Except.error "Five of a kind? You've implemented picking from multiple decks?"
      else
        (sameNumberGo allCards restCards (uc.filter (fun x => x.number != card.number))).map
          (fun rest => consOptional (mkSameNumberHand card hand_cards kickers) rest)
    else sameNumberGo allCards restCards (u0 :: uc)

/-- Rank-grouping pass: high cards, pairs, threes and fours of a kind. -/
def analyse_same_number_hands (cards : List Card) : Except String (List PokerHand) :=
  sameNumberGo cards cards cards

/-- Flush pass: if all cards share the first card's suit, one candidate
whose hand cards and kickers are both the whole hand. -/
def analyse_flush (cards : List Card) : Except String (List PokerHand) :=
  match cards with
  | [] => Except.error "IndexError: list index out of range"
  | c0 :: _ =>
    if cards.all (fun c => c.suit == c0.suit) then
      Except.ok [⟨"Flush, " ++ c0.suit ++ "s",
        (6, Sec.scalar c0.points), cards, some cards⟩]
    else Except.ok []

/-- The straight check: pop the first value, then require each later
value to be exactly one below the running comparand; a mismatch clears
the flag but the loop keeps running (and keeps updating the comparand on
matches). -/
def check_straight_go (straight_compare : Nat) (is_straight : Bool) : List Nat → Bool
  | [] => is_straight
  | n :: ns =>
    if n == straight_compare - 1 then check_straight_go n is_straight ns
    else check_straight_go straight_compare false ns

/-- Straight pass: check the points descending; an ace-high failure is
retried on raw ranks (the wheel A-2-3-4-5), which scores as 5-high. -/
def analyse_straight (cards : List Card) : Except String (List PokerHand) :=
  match cards with
  | [] => Except.error "IndexError: pop from empty list"
  | c0 :: rest =>
    if check_straight_go c0.points true (rest.map Card.points) then
      match cards.getLast? with
      | none => Except.error "IndexError: list index out of range"
      | some clast =>
        Except.ok [⟨"Straight, " ++ num_conv clast.points false ++ " to " ++ num_conv c0.points false,
          (5, Sec.scalar c0.points), cards, none⟩]
    else if c0.points == 14 then
      match pySorted (fun a b => b < a) (cards.map Card.number) with
      | [] => Except.error "IndexError: pop from empty list"
      | m :: ms =>
        if check_straight_go m true ms then
          Except.ok [⟨"Straight, 1 to 5", (5, Sec.scalar 5), cards, none⟩]
        else Except.ok []
    else Except.ok []

/-- Combination pass: two pairs, full house, and straight flush (royal
when the straight tops at 14), built from the earlier candidates. -/
def analyse_combination_hands (cards : List Card) (hand_candidates : List PokerHand) :
    Except String (List PokerHand) :=
  let pairs := hand_candidates.filter (fun x => x.score.1 == 2)
  let threes_of_kind := hand_candidates.filter (fun x => x.score.1 == 4)
  let straights := hand_candidates.filter (fun x => x.score.1 == 5)
  let flushes := hand_candidates.filter (fun x => x.score.1 == 6)
  if pairs.length == 2 then
    if pairs.all (fun x => !secIsPair x.score.2) then
      match pySorted (fun a b => scalarKey b < scalarKey a) pairs with
      | p0 :: p1 :: _ =>
        let hand_cards := p0.hand_cards ++ p1.hand_cards
        let kickers : List Card :=
          match (cards.filter (fun c => !((hand_cards.map cardStr).contains (cardStr c)))).getLast? with
          | none => []
          | some c => [c]
        Except.ok [⟨"Two pairs, " ++ num_conv (scalarKey p0) true ++ " and " ++ num_conv (scalarKey p1) true,
          (3, Sec.pair (scalarKey p0) (scalarKey p1)), hand_cards, some kickers⟩]
      | _ => Except.error "IndexError: list index out of range"
    else Except.error "TypeError: pair candidate with a pair-valued secondary score"
  else if threes_of_kind.length == 1 && pairs.length == 1 then
    match threes_of_kind, pairs with
    | [t0], [p0] =>
      if !secIsPair t0.score.2 && !secIsPair p0.score.2 then
        Except.ok [⟨"Full house, " ++ num_conv (scalarKey t0) true ++ " and " ++ num_conv (scalarKey p0) true,
          (7, Sec.pair (scalarKey t0) (scalarKey p0)), t0.hand_cards ++ p0.hand_cards, none⟩]
      else Except.error "TypeError: candidate with a pair-valued secondary score"
    | _, _ => Except.error "IndexError: list index out of range"
  else if straights.length == 1 && flushes.length == 1 then
    match straights, flushes with
    | [st], [_fl] =>
      if !secIsPair st.score.2 then
        if scalarKey st == 14 then
          Except.ok [⟨"Royal Flush", (9, Sec.scalar (scalarKey st)), cards, none⟩]
        else
          match st.description.splitOn "," with
          | d0 :: d1 :: _ =>
            Except.ok [⟨d0 ++ " Flush," ++ d1, (9, Sec.scalar (scalarKey st)), cards, none⟩]
          | _ => Except.error "IndexError: list index out of range"
      else Except.error "TypeError: candidate with a pair-valued secondary score"
    | _, _ => Except.error "IndexError: list index out of range"
  else Except.ok []

/-- The whole evaluator on an already-sorted hand: gather the candidates
of the four passes in order and let the ranker pick the best. -/
def analyse_poker_hand (cards : List Card) : Except String PokerHand :=
  match analyse_same_number_hands cards with
  | Except.error e => Except.error e
  | Except.ok c1 =>
    match analyse_flush cards with
    | Except.error e => Except.error e
    | Except.ok c2 =>
      match analyse_straight cards with
      | Except.error e => Except.error e
      | Except.ok c3 =>
        match analyse_combination_hands cards (c1 ++ c2 ++ c3) with
        | Except.error e => Except.error e
        | Except.ok c4 =>
          match order_hands (c1 ++ c2 ++ c3 ++ c4) with
          | Except.error e => Except.error e
          | Except.ok (best, _) => Except.ok best

/-- A `HandOfCards` first sorts its cards descending by points, then
evaluates them once at construction. -/
def handSortedCards (test_cards : List Card) : List Card :=
  pySorted (fun a b => b.points < a.points) test_cards

/-- Evaluation of a `HandOfCards` built from the given cards. -/
def evaluateHand (test_cards : List Card) : Except String PokerHand :=
  analyse_poker_hand (handSortedCards test_cards)

/-- The 52 cards of a fresh deck in construction order (rank-major).
The shuffle is the source's only randomness and is not modelled; claims
about drawing quantify over arbitrary deck states. -/
def deckCards : List Card :=
  (List.range 13).flatMap (fun i => ["spade", "heart", "diamond", "club"].map (fun s => ⟨i + 1, s⟩))

/-- A deck is its current list of cards; drawing pops from the end. -/
structure Deck where
  cards : List Card
deriving DecidableEq

/-- Drawing: an exhausted deck raises, otherwise the last card is
removed and returned. -/
def Deck.pick_card (d : Deck) : Except String (Card × Deck) :=
  if d.cards.length == 0 then Except.error "The deck is empty!"
  else
    match d.cards.getLast? with
    | none => Except.error "The deck is empty!"
    | some c => Except.ok (c, ⟨d.cards.dropLast⟩)

/-- Primary score assigned to a rank group, by its size. -/
def groupPrimary : Nat → Option Nat
  | 1 => some 1
  | 2 => some 2
  | 3 => some 4
  | 4 => some 8
  | _ => none

/-- Points value of a rank number (ace high). -/
def pointsOfNum (n : Nat) : Nat := if n ≠ 1 then n else 14

/-- What the rank-grouping pass guarantees of each candidate it emits for
rank `n`: its hand cards are exactly the cards of rank `n`, its score is
the size-determined primary with the rank's points as secondary, and its
kickers are exactly the other cards, sorted descending by raw rank. -/
def sameNumCandProp (cards : List Card) (h : PokerHand) (n : Nat) : Prop :=
  h.hand_cards.Perm (cards.filter (fun c => c.number == n)) ∧
  (∃ prim, groupPrimary h.hand_cards.length = some prim ∧
    h.score = (prim, Sec.scalar (pointsOfNum n))) ∧
  ∃ ks, h.kickers = some ks ∧
    ks.Perm (cards.filter (fun c => !(c.number == n))) ∧
    ks.Pairwise (fun a b => b.number ≤ a.number)

/-- The list of tied hands that the pair-secondary branch of the ranker
actually hands to the kicker comparison, `none` when that branch decides
on scores alone.  Every stage repeats the corresponding stage of
`rankTupleSecondaries` verbatim. -/
def tuplePool (highest_hands : List PokerHand) : Option (List PokerHand) :=
  if highest_hands.all (fun x => secIsPair x.score.2) then
    match pySorted (fun a b => pairLexLt (pairKey b) (pairKey a)) highest_hands with
    | [] => none
    | [_] => none
    | s0 :: s1 :: tl =>
      if (pairKey s0).1 == (pairKey s1).1 && (pairKey s0).2 == (pairKey s1).2 then
        some ((s0 :: s1 :: tl).filter
          (fun x => alwaysTruthyPair (decide ((pairKey x).1 = (pairKey s0).1))
            (decide ((pairKey x).2 = (pairKey s0).2))))
      else none
  else none

/-- The list of tied hands that the scalar-secondary branch of the ranker
actually hands to the kicker comparison, `none` when that branch decides
on scores alone.  Every stage repeats the corresponding stage of
`rankScalarSecondaries` verbatim. -/
def scalarPool (highest_hands : List PokerHand) : Option (List PokerHand) :=
  if highest_hands.all (fun x => !secIsPair x.score.2) then
    match pySorted (fun a b => scalarKey b < scalarKey a) highest_hands with
    | [] => none
    | [_] => none
    | s0 :: s1 :: tl =>
      if scalarKey s0 == scalarKey s1 then
        some ((s0 :: s1 :: tl).filter (fun x => scalarKey x == scalarKey s0))
      else none
  else none

/-- The list of tied hands `order_hands` actually passes to
`sort_by_high_cards`: the hands surviving the maximum-primary filter,
re-sorted by secondary score and run through the branch's kicker filter;
`none` when the ranker decides on scores alone and no kicker comparison
runs.  Every stage repeats the corresponding stage of `order_hands`
verbatim. -/
def kickerPool (hand_list : List PokerHand) : Option (List PokerHand) :=
  match pySorted (fun a b => b.score.1 < a.score.1) hand_list with
  | [] => none
  | top :: tl =>
    match (top :: tl).filter (fun x => x.score.1 == top.score.1) with
    | [] => none
    | hh0 :: hhtl =>
      match hh0.score.2 with
      | Sec.pair _ _ => tuplePool (hh0 :: hhtl)
      | Sec.scalar _ => scalarPool (hh0 :: hhtl)

/-- The contract of the ranker's kicker index, read against the pool of
tied hands actually handed to the kicker comparison: either no comparison
ran (`-2`, and the pool is `none`), or the pool was compared, the winner
is the head of the re-ordered pool, and against the runner-up the index
is `-1` iff their kicker points agree at every position of the winner's
kicker list and `i + 1` iff position `i` holds the first disagreement. -/
def kickerComparisonSpec (pool : Option (List PokerHand)) (w : PokerHand) (ki : Int) : Prop :=
  (ki = -2 ∧ pool = none) ∨
  (ki ≠ -2 ∧ ∃ p ranked h0 h1 tl, pool = some p ∧
    sort_by_high_cards p = Except.ok (ranked, ki) ∧
    ranked = h0 :: h1 :: tl ∧ w = h0 ∧
    (ki = -1 ↔ ∀ i, i < (kickerPointsList h0).length →
      (kickerPointsList h1)[i]? = (kickerPointsList h0)[i]?) ∧
    (∀ i : Nat, ki = (i : Int) + 1 ↔
      ((∀ j, j < i → (kickerPointsList h1)[j]? = (kickerPointsList h0)[j]?) ∧
       ∃ p0 p1, (kickerPointsList h0)[i]? = some p0 ∧
         (kickerPointsList h1)[i]? = some p1 ∧ p1 ≠ p0)))

/-! Basic properties of `pySorted`. -/

theorem insertSorted_perm (lt : α → α → Bool) (a : α) (l : List α) :
    (insertSorted lt a l).Perm (a :: l) := by
  induction l with
  | nil => simp [insertSorted]
  | cons b t ih =>
    simp only [insertSorted]
    split
    · exact List.Perm.refl _
    · exact (List.Perm.cons b ih).trans (List.Perm.swap a b t)

theorem pySorted_foldl_perm (lt : α → α → Bool) (l acc : List α) :
    (l.foldl (fun acc x => insertSorted lt x acc) acc).Perm (acc ++ l) := by
  induction l generalizing acc with
  | nil => simp
  | cons x t ih =>
    simp only [List.foldl_cons]
    refine (ih (insertSorted lt x acc)).trans ?_
    refine (((insertSorted_perm lt x acc).append_right t).trans ?_)
    exact List.perm_middle.symm

theorem pySorted_perm (lt : α → α → Bool) (l : List α) :
    (pySorted lt l).Perm l := by
  simpa using pySorted_foldl_perm lt l []

theorem mem_pySorted (lt : α → α → Bool) {l : List α} {a : α} :
    a ∈ pySorted lt l ↔ a ∈ l :=
  (pySorted_perm lt l).mem_iff

theorem pySorted_length (lt : α → α → Bool) (l : List α) :
    (pySorted lt l).length = l.length :=
  (pySorted_perm lt l).length_eq

theorem insertSorted_pairwise (lt : α → α → Bool)
    (hcomp : ∀ x y b, lt x b = true → lt y b = false → lt y x = false)
    (hirr : ∀ x, lt x x = false)
    (a : α) (l : List α) (hl : l.Pairwise (fun p q => lt q p = false)) :
    (insertSorted lt a l).Pairwise (fun p q => lt q p = false) := by
  induction l with
  | nil => simp [insertSorted]
  | cons b t ih =>
    have hb := (List.pairwise_cons.mp hl).1
    have ht := (List.pairwise_cons.mp hl).2
    simp only [insertSorted]
    split
    · rename_i hab
      refine List.Pairwise.cons ?_ (List.Pairwise.cons hb ht)
      intro y hy
      rcases List.mem_cons.mp hy with rfl | hyt
      · exact hcomp a y y hab (hirr y)
      · exact hcomp a y b hab (hb y hyt)
    · rename_i hab
      have hab' : lt a b = false := by
        cases h : lt a b with
        | true => exact absurd h hab
        | false => rfl
      refine List.Pairwise.cons ?_ (ih ht)
      intro y hy
      rcases List.mem_cons.mp ((insertSorted_perm lt a t).mem_iff.mp hy) with rfl | hyt
      · exact hab'
      · exact hb y hyt

theorem pySorted_pairwise (lt : α → α → Bool)
    (hcomp : ∀ x y b, lt x b = true → lt y b = false → lt y x = false)
    (hirr : ∀ x, lt x x = false) (l : List α) :
    (pySorted lt l).Pairwise (fun p q => lt q p = false) := by
  suffices h : ∀ acc, acc.Pairwise (fun p q => lt q p = false) →
      (l.foldl (fun acc x => insertSorted lt x acc) acc).Pairwise (fun p q => lt q p = false) by
    exact h [] (List.Pairwise.nil)
  induction l with
  | nil => intro acc hacc; simpa using hacc
  | cons x t ih =>
    intro acc hacc
    simp only [List.foldl_cons]
    exact ih _ (insertSorted_pairwise lt hcomp hirr x acc hacc)

theorem pySorted_number_desc (l : List Card) :
    (pySorted (fun a b => b.number < a.number) l).Pairwise
      (fun a b => b.number ≤ a.number) := by
  have h := pySorted_pairwise (fun a b : Card => decide (b.number < a.number))
    (by
      intro x y b hxb hyb
      simp only [decide_eq_true_eq] at hxb
      simp only [decide_eq_false_iff_not] at hyb
      simp only [decide_eq_false_iff_not]
      omega)
    (by intro x; simp) l
  refine h.imp ?_
  intro a b hab
  simp only [decide_eq_false_iff_not] at hab
  omega

/-! Properties of `scanRemove` on lists of string-distinct cards. -/

theorem scanRemove_of_not_mem (s : String) (l : List Card)
    (h : s ∉ l.map cardStr) : scanRemove s l = l := by
  induction l using scanRemove.induct s with
  | case1 => rfl
  | case2 c hc =>
    simp only [List.map_cons, List.mem_cons, not_or, List.not_mem_nil] at h
    exact absurd hc.symm h.1
  | case3 c hc => simp [scanRemove, hc]
  | case4 c d ds hc ih =>
    simp only [List.map_cons, List.mem_cons, not_or] at h
    exact absurd hc.symm h.1
  | case5 c d ds hc ih =>
    simp only [List.map_cons, List.mem_cons, not_or] at h
    simp only [scanRemove, if_neg hc]
    rw [ih (by simp [not_or, h.2.1, h.2.2])]

theorem scanRemove_head_eq (c : Card) (t : List Card)
    (hn : ((c :: t).map cardStr).Nodup) :
    scanRemove (cardStr c) (c :: t) = t := by
  have hnotmem : cardStr c ∉ t.map cardStr := by
    simp only [List.map_cons, List.nodup_cons] at hn
    exact hn.1
  cases t with
  | nil => simp [scanRemove]
  | cons d ds =>
    simp only [scanRemove, if_pos rfl]
    rw [scanRemove_of_not_mem _ _ (by
      intro hmem
      exact hnotmem (by simp [hmem]))]
    simp

theorem scanRemove_eq_erase (c : Card) (l : List Card)
    (hn : (l.map cardStr).Nodup) (hc : c ∈ l) :
    scanRemove (cardStr c) l = l.erase c := by
  induction l with
  | nil => cases hc
  | cons d t ih =>
    by_cases hdc : cardStr d = cardStr c
    · have hcd : c = d := by
        rcases List.mem_cons.mp hc with rfl | hct
        · rfl
        · exact absurd (hdc ▸ List.mem_map_of_mem cardStr hct)
            ((List.nodup_cons.mp ((List.map_cons cardStr d t) ▸ hn)).1)
      subst hcd
      rw [List.erase_cons_head, scanRemove_head_eq c t hn]
    · have hct : c ∈ t := by
        rcases List.mem_cons.mp hc with rfl | hct
        · exact absurd rfl hdc
        · exact hct
      have hdc' : d ≠ c := fun h => hdc (h ▸ rfl)
      have hnt : (t.map cardStr).Nodup :=
        (List.nodup_cons.mp ((List.map_cons cardStr d t) ▸ hn)).2
      cases t with
      | nil => cases hct
      | cons e ts =>
        simp only [scanRemove, if_neg hdc]
        rw [ih hnt hct]
        simp [List.erase_cons, hdc']

theorem foldl_scanRemove_perm (hand_cards : List Card) :
    ∀ base : List Card, (base.map cardStr).Nodup → hand_cards.Nodup →
      (∀ c ∈ hand_cards, c ∈ base) →
      (hand_cards ++ hand_cards.foldl (fun acc hc => scanRemove (cardStr hc) acc) base).Perm base := by
  induction hand_cards with
  | nil => intro base _ _ _; simp
  | cons c t ih =>
    intro base hbstr hnd hsub
    have hcb : c ∈ base := hsub c (List.mem_cons_self c t)
    have hrw : (c :: t).foldl (fun acc hc => scanRemove (cardStr hc) acc) base =
        t.foldl (fun acc hc => scanRemove (cardStr hc) acc) (base.erase c) := by
      simp only [List.foldl_cons]
      rw [scanRemove_eq_erase c base hbstr hcb]
    rw [hrw]
    have herase_sub : (base.erase c).Sublist base := List.erase_sublist c base
    have hestr : ((base.erase c).map cardStr).Nodup :=
      (herase_sub.map cardStr).nodup hbstr
    have hndt : t.Nodup := (List.nodup_cons.mp hnd).2
    have hcnott : c ∉ t := (List.nodup_cons.mp hnd).1
    have hsubt : ∀ x ∈ t, x ∈ base.erase c := by
      intro x hx
      have hxc : x ≠ c := fun h => hcnott (h ▸ hx)
      exact (List.mem_erase_of_ne hxc).mpr (hsub x (List.mem_cons_of_mem c hx))
    have ihe := ih (base.erase c) hestr hndt hsubt
    refine List.Perm.trans ?_ (List.perm_cons_erase hcb).symm
    exact ihe.cons c

/-! Characterization of the rank-grouping pass. -/

theorem card_points_eq (c : Card) : c.points = pointsOfNum c.number := rfl

theorem except_map_ok {α β : Type} {f : α → β} {e : Except String α} {b : β}
    (h : Except.map f e = Except.ok b) : ∃ a, e = Except.ok a ∧ b = f a := by
  cases e with
  | error err => simp [Except.map] at h
  | ok a =>
    refine ⟨a, rfl, ?_⟩
    simpa [Except.map] using h.symm

theorem mkSameNumberHand_prop {card : Card} {hand_cards kickers : List Card} {ph : PokerHand}
    (hmk : mkSameNumberHand card hand_cards kickers = some ph) :
    ph.hand_cards = hand_cards ∧ ph.kickers = some kickers ∧
    ∃ prim, groupPrimary hand_cards.length = some prim ∧
      ph.score = (prim, Sec.scalar card.points) := by
  simp only [mkSameNumberHand] at hmk
  split at hmk
  · rename_i h4
    have h4' : hand_cards.length = 4 := by simpa using h4
    cases hmk
    exact ⟨rfl, rfl, 8, by rw [h4']; rfl, rfl⟩
  split at hmk
  · rename_i h3
    have h3' : hand_cards.length = 3 := by simpa using h3
    cases hmk
    exact ⟨rfl, rfl, 4, by rw [h3']; rfl, rfl⟩
  split at hmk
  · rename_i h2
    have h2' : hand_cards.length = 2 := by simpa using h2
    cases hmk
    exact ⟨rfl, rfl, 2, by rw [h2']; rfl, rfl⟩
  split at hmk
  · rename_i h1
    have h1' : hand_cards.length = 1 := by simpa using h1
    cases hmk
    exact ⟨rfl, rfl, 1, by rw [h1']; rfl, rfl⟩
  · cases hmk

theorem sameNumberGo_spec (allCards : List Card) (hstr : (allCards.map cardStr).Nodup) :
    ∀ (rest pre uncounted : List Card) (S : List Nat) (res : List PokerHand),
      allCards = pre ++ rest →
      uncounted = rest.filter (fun x => !(S.contains x.number)) →
      (∀ x ∈ pre, x.number ∈ S) →
      sameNumberGo allCards rest uncounted = Except.ok res →
      ∃ ns : List Nat, ns.Nodup ∧ (∀ n ∈ ns, ¬ n ∈ S) ∧
        List.Forall₂ (sameNumCandProp allCards) res ns := by
  intro rest
  induction rest with
  | nil =>
    intro pre uncounted S res _ _ _ hok
    simp only [sameNumberGo] at hok
    cases hok
    exact ⟨[], List.nodup_nil, by simp, List.Forall₂.nil⟩
  | cons card restCards ih =>
    intro pre uncounted S res hsplit hunc hpre hok
    have hcardAll : card ∈ allCards := by
      rw [hsplit]
      exact List.mem_append_right pre (List.mem_cons_self card restCards)
    by_cases hSc : S.contains card.number = true
    · -- the rank of `card` was already grouped: `card` is not in the working copy
      have hcardS : card.number ∈ S := by simpa using hSc
      have huncB : uncounted = restCards.filter (fun x => !(S.contains x.number)) := by
        rw [hunc, List.filter_cons_of_neg (by simp [hcardS])]
      have hpre' : ∀ x ∈ pre ++ [card], x.number ∈ S := by
        intro x hx
        rcases List.mem_append.mp hx with hx | hx
        · exact hpre x hx
        · rw [List.mem_singleton.mp hx]; exact hcardS
      have hsplit' : allCards = (pre ++ [card]) ++ restCards := by
        rw [hsplit, List.append_assoc]; rfl
      cases huncshape : uncounted with
      | nil =>
        rw [huncshape] at hok
        simp only [sameNumberGo] at hok
        exact ih (pre ++ [card]) [] S res hsplit'
          (huncshape.symm.trans huncB) hpre' hok
      | cons u0 uc =>
        have hmemAll : ∀ y ∈ uncounted, y ∈ allCards := by
          intro y hy
          rw [hunc] at hy
          rw [hsplit]
          exact List.mem_append_right pre (List.mem_of_mem_filter hy)
        have hcontains : (((u0 :: uc).map cardStr).contains (cardStr card)) = false := by
          by_contra hcon
          have hcon' : ((u0 :: uc).map cardStr).contains (cardStr card) = true := by
            revert hcon
            cases ((u0 :: uc).map cardStr).contains (cardStr card) <;> simp
          have hmem : cardStr card ∈ (u0 :: uc).map cardStr := by simpa using hcon'
          obtain ⟨y, hy, hys⟩ := List.mem_map.mp hmem
          have hyA : y ∈ allCards := hmemAll y (huncshape ▸ hy)
          have hyc : y = card := List.inj_on_of_nodup_map hstr hyA hcardAll hys
          have hcu : card ∈ uncounted := by
            rw [huncshape]
            exact hyc ▸ hy
          rw [hunc] at hcu
          have hfp := (List.mem_filter.mp hcu).2
          rw [hSc] at hfp
          exact absurd hfp (by simp)
        rw [huncshape] at hok
        simp only [sameNumberGo, hcontains] at hok
        exact ih (pre ++ [card]) (u0 :: uc) S res hsplit'
          (huncshape.symm.trans huncB) hpre' hok
    · -- `card` opens a new rank group
      have hScf : S.contains card.number = false := by
        revert hSc
        cases S.contains card.number <;> simp
      have hcardNotS : ¬ card.number ∈ S := by simpa using hScf
      have hpcard : (!(S.contains card.number)) = true := by rw [hScf]; rfl
      have hsplit' : allCards = (pre ++ [card]) ++ restCards := by
        rw [hsplit, List.append_assoc]
        rfl
      have hunc' : uncounted = card :: restCards.filter (fun x => !(S.contains x.number)) := by
        rw [hunc, List.filter_cons_of_pos (by simp [hcardNotS])]
      rw [hunc'] at hok
      have hcond : (((card :: restCards.filter (fun x => !(S.contains x.number))).map
          cardStr).contains (cardStr card)) = true := by simp
      simp only [sameNumberGo, hcond, if_true] at hok
      -- the collected group: cards of the same rank still uncounted
      have hmatched : (restCards.filter (fun x => !(S.contains x.number))).filter
          (fun x => x.number == card.number)
          = restCards.filter (fun x => x.number == card.number) := by
        rw [List.filter_filter]
        refine List.filter_congr ?_
        intro x _
        cases hq : (x.number == card.number) with
        | false => simp
        | true =>
          have hxn : x.number = card.number := by simpa using hq
          simp [hxn, hcardNotS]
      rw [hmatched] at hok
      have hfilterAll : allCards.filter (fun c => c.number == card.number)
          = card :: restCards.filter (fun c => c.number == card.number) := by
        rw [hsplit, List.filter_append, List.filter_cons_of_pos (by simp)]
        have hprefil : pre.filter (fun c => c.number == card.number) = [] := by
          rw [List.filter_eq_nil_iff]
          intro x hx hbeq
          have hxn : x.number = card.number := by simpa using hbeq
          exact hcardNotS (hxn ▸ hpre x hx)
        rw [hprefil]
        rfl
      have hgroupPerm : (card :: (restCards.filter
            (fun x => x.number == card.number)).reverse).Perm
          (allCards.filter (fun c => c.number == card.number)) := by
        rw [hfilterAll]
        exact (List.reverse_perm _).cons card
      by_cases h5 : ((card :: (restCards.filter
          (fun x => x.number == card.number)).reverse).length == 5) = true
      · rw [if_pos h5] at hok
        exact absurd hok (by simp)
      · rw [if_neg h5] at hok
        obtain ⟨rest_, hrec, hres⟩ := except_map_ok hok
        have hrecunc : (restCards.filter (fun x => !(S.contains x.number))).filter
            (fun x => x.number != card.number)
            = restCards.filter (fun x => !((card.number :: S).contains x.number)) := by
          rw [List.filter_filter]
          refine List.filter_congr ?_
          intro x _
          rw [Bool.eq_iff_iff]
          simp only [Bool.and_eq_true, bne_iff_ne, Bool.not_eq_true']
          constructor
          · intro hh
            have h1 := hh.1
            have h2 := hh.2
            have hnm : ¬ x.number ∈ S := by simpa using h2
            have : ¬ x.number ∈ (card.number :: S) := by
              intro hmem
              rcases List.mem_cons.mp hmem with heq | hmem
              · exact h1 heq
              · exact hnm hmem
            simpa using this
          · intro hh
            have : ¬ x.number ∈ (card.number :: S) := by simpa using hh
            constructor
            · intro heq
              exact this (heq ▸ List.mem_cons_self card.number S)
            · have hnm : ¬ x.number ∈ S := fun hm => this (List.mem_cons_of_mem _ hm)
              simpa using hnm
        rw [hrecunc] at hrec
        obtain ⟨ns', hnd', hnS', hfa'⟩ := ih (pre ++ [card]) _ (card.number :: S) rest_
          hsplit' rfl
          (by
            intro x hx
            rcases List.mem_append.mp hx with hx | hx
            · exact List.mem_cons_of_mem _ (hpre x hx)
            · rw [List.mem_singleton.mp hx]
              exact List.mem_cons_self _ _)
          hrec
        have hnS'' : ∀ n ∈ ns', ¬ n ∈ S := by
          intro n hn hmem
          exact hnS' n hn (List.mem_cons_of_mem _ hmem)
        have hcardNotNs' : ¬ card.number ∈ ns' := by
          intro hmem
          exact hnS' card.number hmem (List.mem_cons_self _ _)
        cases hmk : mkSameNumberHand card
            (card :: (restCards.filter (fun x => x.number == card.number)).reverse)
            (pySorted (fun a b => b.number < a.number)
              ((card :: (restCards.filter (fun x => x.number == card.number)).reverse).foldl
                (fun acc hc => scanRemove (cardStr hc) acc) allCards)) with
        | none =>
          refine ⟨ns', hnd', hnS'', ?_⟩
          rw [hres, hmk]
          exact hfa'
        | some ph =>
          refine ⟨card.number :: ns', List.nodup_cons.mpr ⟨hcardNotNs', hnd'⟩, ?_, ?_⟩
          · intro n hn
            rcases List.mem_cons.mp hn with rfl | hn
            · exact hcardNotS
            · exact hnS'' n hn
          · rw [hres, hmk]
            refine List.Forall₂.cons ?_ hfa'
            obtain ⟨hhc, hks, prim, hgp, hscore⟩ := mkSameNumberHand_prop hmk
            have hhcNodup : (card :: (restCards.filter
                (fun x => x.number == card.number)).reverse).Nodup := by
              refine (hgroupPerm.nodup_iff).mpr ?_
              exact (List.Nodup.of_map cardStr hstr).filter _
            have hhcSub : ∀ c ∈ (card :: (restCards.filter
                (fun x => x.number == card.number)).reverse), c ∈ allCards := by
              intro c hc
              exact List.mem_of_mem_filter (hgroupPerm.mem_iff.mp hc)
            have htempPerm := foldl_scanRemove_perm
              (card :: (restCards.filter (fun x => x.number == card.number)).reverse)
              allCards hstr hhcNodup hhcSub
            have hsplitPerm := List.filter_append_perm
              (fun c => c.number == card.number) allCards
            have htempNot : ((card :: (restCards.filter
                (fun x => x.number == card.number)).reverse).foldl
                  (fun acc hc => scanRemove (cardStr hc) acc) allCards).Perm
                (allCards.filter (fun c => !(c.number == card.number))) := by
              refine (List.perm_append_left_iff
                (allCards.filter (fun c => c.number == card.number))).mp ?_
              refine List.Perm.trans ?_ hsplitPerm.symm
              refine List.Perm.trans ((hgroupPerm.symm).append_right _) htempPerm
            constructor
            · rw [hhc]
              exact hgroupPerm
            constructor
            · refine ⟨prim, ?_, ?_⟩
              · rw [hhc]
                exact hgp
              · rw [hscore]
                rfl
            · refine ⟨_, hks, ?_, ?_⟩
              · exact (pySorted_perm _ _).trans htempNot
              · exact pySorted_number_desc _

theorem analyse_same_number_spec {cards : List Card} {res : List PokerHand}
    (hstr : (cards.map cardStr).Nodup)
    (hok : analyse_same_number_hands cards = Except.ok res) :
    ∃ ns : List Nat, ns.Nodup ∧ List.Forall₂ (sameNumCandProp cards) res ns := by
  obtain ⟨ns, hnd, _, hfa⟩ := sameNumberGo_spec cards hstr cards [] cards [] res (by simp)
    (by simp) (by simp) hok
  exact ⟨ns, hnd, hfa⟩

theorem analyse_flush_spec {cards : List Card} {res : List PokerHand}
    (hok : analyse_flush cards = Except.ok res) :
    ∀ h ∈ res, h.score.1 = 6 ∧ h.hand_cards = cards ∧ h.kickers = some cards := by
  cases cards with
  | nil => simp [analyse_flush] at hok
  | cons c0 t =>
    simp only [analyse_flush] at hok
    split at hok
    · cases hok
      intro h hmem
      rw [List.mem_singleton.mp hmem]
      exact ⟨rfl, rfl, rfl⟩
    · cases hok
      intro h hmem
      cases hmem

theorem analyse_straight_spec {cards : List Card} {res : List PokerHand}
    (hok : analyse_straight cards = Except.ok res) :
    ∀ h ∈ res, h.score.1 = 5 ∧ h.hand_cards = cards ∧ h.kickers = none := by
  cases cards with
  | nil => simp [analyse_straight] at hok
  | cons c0 t =>
    simp only [analyse_straight] at hok
    split at hok
    · split at hok
      · cases hok
      · cases hok
        intro h hmem
        rw [List.mem_singleton.mp hmem]
        exact ⟨rfl, rfl, rfl⟩
    · split at hok
      · split at hok
        · cases hok
        · split at hok
          · cases hok
            intro h hmem
            rw [List.mem_singleton.mp hmem]
            exact ⟨rfl, rfl, rfl⟩
          · cases hok
            intro h hmem
            cases hmem
      · cases hok
        intro h hmem
        cases hmem

/-! Helpers for walking a `Forall₂` along filters. -/

theorem forall₂_mem_left {R : PokerHand → Nat → Prop} {res : List PokerHand} {ns : List Nat}
    (hfa : List.Forall₂ R res ns) : ∀ {a}, a ∈ res → ∃ n ∈ ns, R a n := by
  induction hfa with
  | nil => intro a ha; cases ha
  | cons hxy htail ih =>
    intro a ha
    rcases List.mem_cons.mp ha with rfl | ha
    · exact ⟨_, List.mem_cons_self _ _, hxy⟩
    · obtain ⟨n, hn, hR⟩ := ih ha
      exact ⟨n, List.mem_cons_of_mem _ hn, hR⟩

theorem forall₂_filter_one {R : PokerHand → Nat → Prop} {q : PokerHand → Bool}
    {res : List PokerHand} {ns : List Nat} (hfa : List.Forall₂ R res ns) :
    ∀ {b l}, res.filter q = b :: l → ∃ n ∈ ns, R b n := by
  induction hfa with
  | nil => intro b l h; simp at h
  | cons hxy htail ih =>
    rename_i x y t ts
    intro b l hfil
    cases hq : q x with
    | true =>
      rw [List.filter_cons_of_pos hq] at hfil
      obtain ⟨rfl, -⟩ := List.cons.inj hfil
      exact ⟨y, List.mem_cons_self _ _, hxy⟩
    | false =>
      rw [List.filter_cons_of_neg (by simp [hq])] at hfil
      obtain ⟨n, hn, hR⟩ := ih hfil
      exact ⟨n, List.mem_cons_of_mem _ hn, hR⟩

theorem forall₂_filter_two {R : PokerHand → Nat → Prop} {q : PokerHand → Bool}
    {res : List PokerHand} {ns : List Nat} (hfa : List.Forall₂ R res ns) :
    ns.Nodup → ∀ {a b}, res.filter q = [a, b] → ∃ na nb, na ≠ nb ∧ R a na ∧ R b nb := by
  induction hfa with
  | nil => intro _ a b h; simp at h
  | cons hxy htail ih =>
    rename_i x y t ts
    intro hnd a b hfil
    cases hq : q x with
    | true =>
      rw [List.filter_cons_of_pos hq] at hfil
      obtain ⟨rfl, hfil'⟩ := List.cons.inj hfil
      obtain ⟨nb, hnb, hRb⟩ := forall₂_filter_one htail hfil'
      refine ⟨y, nb, ?_, hxy, hRb⟩
      intro h
      exact (List.nodup_cons.mp hnd).1 (h ▸ hnb)
    | false =>
      rw [List.filter_cons_of_neg (by simp [hq])] at hfil
      exact ih (List.nodup_cons.mp hnd).2 hfil

theorem groupPrimary_cases {m prim : Nat} (h : groupPrimary m = some prim) :
    (m = 1 ∧ prim = 1) ∨ (m = 2 ∧ prim = 2) ∨ (m = 3 ∧ prim = 4) ∨ (m = 4 ∧ prim = 8) := by
  match m with
  | 0 => simp [groupPrimary] at h
  | 1 => simp [groupPrimary] at h; omega
  | 2 => simp [groupPrimary] at h; omega
  | 3 => simp [groupPrimary] at h; omega
  | 4 => simp [groupPrimary] at h; omega
  | (k + 5) => simp [groupPrimary] at h

/-! The ranker's winner always comes from the input list. -/

theorem sort_by_high_cards_ok_eq {hs l : List PokerHand} {ki : Int}
    (hok : sort_by_high_cards hs = Except.ok (l, ki)) :
    l = pySorted (fun a b => listLexLt (kickerPointsList b) (kickerPointsList a)) hs := by
  simp only [sort_by_high_cards] at hok
  split at hok
  · split at hok
    · cases hok
    · rename_i h0 rest heq
      split at hok
      · simp only [Except.ok.injEq, Prod.mk.injEq] at hok
        rw [← hok.1, heq]
      · split at hok
        · cases hok
        · split at hok
          · cases hok
          · simp only [Except.ok.injEq, Prod.mk.injEq] at hok
            rw [← hok.1, heq]
  · cases hok

theorem detKickerIdx_range (ks0 : List Nat) : ∀ (ks1 : List Nat) (s : Nat) (r : Int),
    detKickerIdx ks0 ks1 s = Except.ok r →
    r = -1 ∨ ∃ m : Nat, s ≤ m ∧ r = (m : Int) + 1 := by
  induction ks0 with
  | nil =>
    intro ks1 s r h
    simp only [detKickerIdx, Except.ok.injEq] at h
    exact Or.inl h.symm
  | cons k ks ih =>
    intro ks1 s r h
    simp only [detKickerIdx] at h
    split at h
    · cases h
    · split at h
      · simp only [Except.ok.injEq] at h
        exact Or.inr ⟨s, le_refl s, h.symm⟩
      · rcases ih ks1 (s + 1) r h with h1 | ⟨m, hm, hr⟩
        · exact Or.inl h1
        · exact Or.inr ⟨m, by omega, hr⟩

theorem sort_by_high_cards_ki {hs l : List PokerHand} {ki : Int}
    (hok : sort_by_high_cards hs = Except.ok (l, ki)) :
    ki = -1 ∨ ∃ m : Nat, ki = (m : Int) + 1 := by
  simp only [sort_by_high_cards] at hok
  split at hok
  · split at hok
    · cases hok
    · split at hok
      · simp only [Except.ok.injEq, Prod.mk.injEq] at hok
        exact Or.inl hok.2.symm
      · split at hok
        · cases hok
        · split at hok
          · cases hok
          · rename_i hdet
            simp only [Except.ok.injEq, Prod.mk.injEq] at hok
            rcases detKickerIdx_range _ _ _ _ hdet with h1 | ⟨m, _, hr⟩
            · exact Or.inl (hok.2 ▸ h1)
            · exact Or.inr ⟨m, hok.2 ▸ hr⟩
  · cases hok

theorem kickerFallback_mem {filtered : List PokerHand} {w : PokerHand} {ki : Int}
    (hok : kickerFallback filtered = Except.ok (w, ki)) : w ∈ filtered := by
  cases hsb : sort_by_high_cards filtered with
  | error e =>
    simp only [kickerFallback, hsb] at hok
    cases hok
  | ok pr =>
    obtain ⟨ks, ki2⟩ := pr
    simp only [kickerFallback, hsb] at hok
    cases ks with
    | nil => cases hok
    | cons w2 tl =>
      simp only [Except.ok.injEq, Prod.mk.injEq] at hok
      have heq := sort_by_high_cards_ok_eq hsb
      have hw : w ∈ w2 :: tl := hok.1 ▸ List.mem_cons_self _ _
      rw [heq] at hw
      exact (pySorted_perm _ filtered).mem_iff.mp hw

theorem rankTupleSecondaries_mem {hh : List PokerHand} {w : PokerHand} {ki : Int}
    (hok : rankTupleSecondaries hh = Except.ok (w, ki)) : w ∈ hh := by
  have hperm := pySorted_perm (fun a b => pairLexLt (pairKey b) (pairKey a)) hh
  rcases hsort : pySorted (fun a b => pairLexLt (pairKey b) (pairKey a)) hh with
    _ | ⟨s0, _ | ⟨s1, tl⟩⟩
  · rw [hsort] at hperm
    simp only [rankTupleSecondaries, hsort] at hok
    split at hok <;> cases hok
  · rw [hsort] at hperm
    simp only [rankTupleSecondaries, hsort] at hok
    split at hok
    · simp only [Except.ok.injEq, Prod.mk.injEq] at hok
      exact hperm.mem_iff.mp (hok.1 ▸ List.mem_cons_self _ _)
    · cases hok
  · rw [hsort] at hperm
    simp only [rankTupleSecondaries, hsort] at hok
    split at hok
    · split at hok
      · exact hperm.mem_iff.mp (List.mem_of_mem_filter (kickerFallback_mem hok))
      · simp only [Except.ok.injEq, Prod.mk.injEq] at hok
        exact hperm.mem_iff.mp (hok.1 ▸ List.mem_cons_self _ _)
    · cases hok

theorem rankScalarSecondaries_mem {hh : List PokerHand} {w : PokerHand} {ki : Int}
    (hok : rankScalarSecondaries hh = Except.ok (w, ki)) : w ∈ hh := by
  have hperm := pySorted_perm (fun a b => scalarKey b < scalarKey a) hh
  rcases hsort : pySorted (fun a b => scalarKey b < scalarKey a) hh with
    _ | ⟨s0, _ | ⟨s1, tl⟩⟩
  · rw [hsort] at hperm
    simp only [rankScalarSecondaries, hsort] at hok
    split at hok <;> cases hok
  · rw [hsort] at hperm
    simp only [rankScalarSecondaries, hsort] at hok
    split at hok
    · simp only [Except.ok.injEq, Prod.mk.injEq] at hok
      exact hperm.mem_iff.mp (hok.1 ▸ List.mem_cons_self _ _)
    · cases hok
  · rw [hsort] at hperm
    simp only [rankScalarSecondaries, hsort] at hok
    split at hok
    · split at hok
      · exact hperm.mem_iff.mp (List.mem_of_mem_filter (kickerFallback_mem hok))
      · simp only [Except.ok.injEq, Prod.mk.injEq] at hok
        exact hperm.mem_iff.mp (hok.1 ▸ List.mem_cons_self _ _)
    · cases hok

theorem order_hands_mem {hl : List PokerHand} {w : PokerHand} {ki : Int}
    (hok : order_hands hl = Except.ok (w, ki)) : w ∈ hl := by
  have hperm := pySorted_perm (fun a b : PokerHand => b.score.1 < a.score.1) hl
  rcases hsort : pySorted (fun a b : PokerHand => b.score.1 < a.score.1) hl with _ | ⟨top, tl⟩
  · rw [hsort] at hperm
    simp only [order_hands, hsort] at hok
    cases hok
  · rw [hsort] at hperm
    simp only [order_hands, hsort] at hok
    rcases hfil : (top :: tl).filter (fun x => x.score.1 == top.score.1) with _ | ⟨hh0, hhtl⟩
    · rw [hfil] at hok
      cases hok
    · rw [hfil] at hok
      have hsub : w ∈ (top :: tl).filter (fun x => x.score.1 == top.score.1) → w ∈ hl :=
        fun hmem => hperm.mem_iff.mp (List.mem_of_mem_filter hmem)
      cases hsec : hh0.score.2 with
      | pair a b =>
        simp only [hsec] at hok
        exact hsub (hfil ▸ rankTupleSecondaries_mem hok)
      | scalar n =>
        simp only [hsec] at hok
        exact hsub (hfil ▸ rankScalarSecondaries_mem hok)

/-! Helpers for the combination pass. -/

theorem perm_pair_cases {α : Type} {a b x y : α} (h : ([x, y]).Perm [a, b]) :
    (x = a ∧ y = b) ∨ (x = b ∧ y = a) := by
  rcases List.mem_pair.mp (h.subset (List.mem_cons_self x [y])) with rfl | rfl
  · left
    refine ⟨rfl, ?_⟩
    have := List.perm_singleton.mp (h.cons_inv)
    exact (List.cons.inj this).1
  · right
    refine ⟨rfl, ?_⟩
    have h2 : ([x, y]).Perm [x, a] := h.trans (List.Perm.swap x a [])
    have := List.perm_singleton.mp (h2.cons_inv)
    exact (List.cons.inj this).1

theorem candProp_hand_len {cards : List Card} {h : PokerHand} {n : Nat}
    (hp : sameNumCandProp cards h n) {k : Nat} (hk : h.score.1 = k) :
    (k = 1 ∧ h.hand_cards.length = 1) ∨ (k = 2 ∧ h.hand_cards.length = 2) ∨
    (k = 4 ∧ h.hand_cards.length = 3) ∨ (k = 8 ∧ h.hand_cards.length = 4) := by
  obtain ⟨-, ⟨prim, hgp, hscore⟩, -⟩ := hp
  have hpk : prim = k := by
    rw [hscore] at hk
    exact hk
  rcases groupPrimary_cases hgp with ⟨h1, h2⟩ | ⟨h1, h2⟩ | ⟨h1, h2⟩ | ⟨h1, h2⟩ <;> omega

theorem candProp_filter_len {cards : List Card} {h : PokerHand} {n : Nat}
    (hp : sameNumCandProp cards h n) :
    (cards.filter (fun c => c.number == n)).length = h.hand_cards.length :=
  hp.1.length_eq.symm

theorem filter_append3_of_none {q : PokerHand → Bool} {c1 c2 c3 : List PokerHand}
    (h2 : ∀ h ∈ c2, q h = false) (h3 : ∀ h ∈ c3, q h = false) :
    (c1 ++ c2 ++ c3).filter q = c1.filter q := by
  rw [List.filter_append, List.filter_append,
    show c2.filter q = [] from List.filter_eq_nil_iff.mpr (by intro a ha; simp [h2 a ha]),
    show c3.filter q = [] from List.filter_eq_nil_iff.mpr (by intro a ha; simp [h3 a ha])]
  simp

theorem nonmember_filter_eq {cards : List Card} (hstr : (cards.map cardStr).Nodup)
    {hcA hcB : List Card} {na nb : Nat}
    (hA : hcA.Perm (cards.filter (fun c => c.number == na)))
    (hB : hcB.Perm (cards.filter (fun c => c.number == nb))) :
    cards.filter (fun c => !(((hcA ++ hcB).map cardStr).contains (cardStr c)))
      = cards.filter (fun c => !(c.number == na) && !(c.number == nb)) := by
  refine List.filter_congr ?_
  intro x hx
  have hiff : (((hcA ++ hcB).map cardStr).contains (cardStr x) = true)
      ↔ (x.number = na ∨ x.number = nb) := by
    constructor
    · intro hcon
      have hmem : cardStr x ∈ (hcA ++ hcB).map cardStr := by simpa using hcon
      obtain ⟨y, hy, hys⟩ := List.mem_map.mp hmem
      have hyc : y ∈ cards := by
        rcases List.mem_append.mp hy with hy2 | hy2
        · exact List.mem_of_mem_filter (hA.mem_iff.mp hy2)
        · exact List.mem_of_mem_filter (hB.mem_iff.mp hy2)
      have hxy : y = x := List.inj_on_of_nodup_map hstr hyc hx hys
      rw [← hxy]
      rcases List.mem_append.mp hy with hy2 | hy2
      · left
        simpa using (List.mem_filter.mp (hA.mem_iff.mp hy2)).2
      · right
        simpa using (List.mem_filter.mp (hB.mem_iff.mp hy2)).2
    · intro hor
      have hxin : x ∈ hcA ++ hcB := by
        rcases hor with heq | heq
        · exact List.mem_append_left _ (hA.mem_iff.mpr (List.mem_filter.mpr ⟨hx, by simp [heq]⟩))
        · exact List.mem_append_right _ (hB.mem_iff.mpr (List.mem_filter.mpr ⟨hx, by simp [heq]⟩))
      have : cardStr x ∈ (hcA ++ hcB).map cardStr := List.mem_map_of_mem cardStr hxin
      simpa using this
  by_cases hor : (x.number = na ∨ x.number = nb)
  · rw [hiff.mpr hor]
    rcases hor with heq | heq
    · simp [heq]
    · simp [heq]
  · have hcon : ((hcA ++ hcB).map cardStr).contains (cardStr x) = false := by
      cases hc : ((hcA ++ hcB).map cardStr).contains (cardStr x)
      · rfl
      · exact absurd (hiff.mp hc) hor
    rw [hcon]
    push_neg at hor
    simp [hor.1, hor.2]

theorem filter_three_way_perm (cards : List Card) {na nb : Nat} (hne : na ≠ nb) :
    (cards.filter (fun c => c.number == na) ++ cards.filter (fun c => c.number == nb)
      ++ cards.filter (fun c => !(c.number == na) && !(c.number == nb))).Perm cards := by
  induction cards with
  | nil => simp
  | cons c t ih =>
    by_cases h1 : c.number = na
    · rw [List.filter_cons_of_pos (by simp [h1]),
        List.filter_cons_of_neg (by simp [h1, hne]),
        List.filter_cons_of_neg (by simp [h1])]
      exact ih.cons c
    · by_cases h2 : c.number = nb
      · rw [List.filter_cons_of_neg (by simp [h1]),
          List.filter_cons_of_pos (by simp [h2]),
          List.filter_cons_of_neg (by simp [h2])]
        have e1 : t.filter (fun c => c.number == na) ++ (c :: t.filter (fun c => c.number == nb))
            ++ t.filter (fun c => !(c.number == na) && !(c.number == nb))
            = t.filter (fun c => c.number == na)
              ++ c :: (t.filter (fun c => c.number == nb)
                ++ t.filter (fun c => !(c.number == na) && !(c.number == nb))) := by
          simp
        rw [e1]
        refine List.Perm.trans List.perm_middle ?_
        refine List.Perm.cons c ?_
        rw [← List.append_assoc]
        exact ih
      · rw [List.filter_cons_of_neg (by simp [h1]),
          List.filter_cons_of_neg (by simp [h2]),
          List.filter_cons_of_pos (by simp [h1, h2])]
        have e1 : t.filter (fun c => c.number == na) ++ t.filter (fun c => c.number == nb)
            ++ (c :: t.filter (fun c => !(c.number == na) && !(c.number == nb)))
            = (t.filter (fun c => c.number == na) ++ t.filter (fun c => c.number == nb))
              ++ c :: t.filter (fun c => !(c.number == na) && !(c.number == nb)) := by
          simp
        rw [e1]
        refine List.Perm.trans List.perm_middle ?_
        exact (ih).cons c

theorem two_pairs_branch_inv {cards : List Card} (hlen : cards.length = 5)
    (hstr : (cards.map cardStr).Nodup) {p0 p1 : PokerHand} {n0 n1 : Nat} (hne : n0 ≠ n1)
    (hR0 : sameNumCandProp cards p0 n0) (hR1 : sameNumCandProp cards p1 n1)
    (hl0 : p0.hand_cards.length = 2) (hl1 : p1.hand_cards.length = 2) :
    ∃ c5, (cards.filter (fun c =>
        !(((p0.hand_cards ++ p1.hand_cards).map cardStr).contains (cardStr c)))) = [c5] ∧
      ((p0.hand_cards ++ p1.hand_cards) ++ [c5]).Perm cards := by
  have hA := hR0.1
  have hB := hR1.1
  have hperm3 := filter_three_way_perm cards hne
  have hnonmem := nonmember_filter_eq hstr hA hB
  have hlf0 : (cards.filter (fun c => c.number == n0)).length = 2 := by
    rw [candProp_filter_len hR0, hl0]
  have hlf1 : (cards.filter (fun c => c.number == n1)).length = 2 := by
    rw [candProp_filter_len hR1, hl1]
  have hlenr : (cards.filter (fun c => !(c.number == n0) && !(c.number == n1))).length = 1 := by
    have hle := hperm3.length_eq
    simp only [List.length_append] at hle
    omega
  obtain ⟨c5, hc5⟩ := List.length_eq_one.mp hlenr
  refine ⟨c5, ?_, ?_⟩
  · rw [hnonmem, hc5]
  · rw [hc5] at hperm3
    refine List.Perm.trans ?_ hperm3
    exact (hA.append hB).append_right [c5]

theorem full_house_branch_inv {cards : List Card} (hlen : cards.length = 5)
    {t0 p0 : PokerHand} {n0 n1 : Nat} (hne : n0 ≠ n1)
    (hR0 : sameNumCandProp cards t0 n0) (hR1 : sameNumCandProp cards p0 n1)
    (hl0 : t0.hand_cards.length = 3) (hl1 : p0.hand_cards.length = 2) :
    (t0.hand_cards ++ p0.hand_cards).Perm cards := by
  have hA := hR0.1
  have hB := hR1.1
  have hperm3 := filter_three_way_perm cards hne
  have hlf0 : (cards.filter (fun c => c.number == n0)).length = 3 := by
    rw [candProp_filter_len hR0, hl0]
  have hlf1 : (cards.filter (fun c => c.number == n1)).length = 2 := by
    rw [candProp_filter_len hR1, hl1]
  have hlenr : (cards.filter (fun c => !(c.number == n0) && !(c.number == n1))).length = 0 := by
    have hle := hperm3.length_eq
    simp only [List.length_append] at hle
    omega
  have hrnil : cards.filter (fun c => !(c.number == n0) && !(c.number == n1)) = [] :=
    List.length_eq_zero.mp hlenr
  rw [hrnil, List.append_nil] at hperm3
  exact (hA.append hB).trans hperm3

theorem analyse_combination_inv {cards : List Card} {c1 c2 c3 res : List PokerHand}
    (hlen : cards.length = 5) (hstr : (cards.map cardStr).Nodup)
    {ns : List Nat} (hnd : ns.Nodup) (hfa : List.Forall₂ (sameNumCandProp cards) c1 ns)
    (hc2 : ∀ h ∈ c2, h.score.1 = 6)
    (hc3 : ∀ h ∈ c3, h.score.1 = 5)
    (hok : analyse_combination_hands cards (c1 ++ c2 ++ c3) = Except.ok res) :
    ∀ h ∈ res, (h.hand_cards ++ h.kickers.getD []).toFinset = cards.toFinset := by
  have hq2 : (c1 ++ c2 ++ c3).filter (fun x => x.score.1 == 2)
      = c1.filter (fun x => x.score.1 == 2) :=
    filter_append3_of_none (by intro h hm; simp [hc2 h hm]) (by intro h hm; simp [hc3 h hm])
  have hq4 : (c1 ++ c2 ++ c3).filter (fun x => x.score.1 == 4)
      = c1.filter (fun x => x.score.1 == 4) :=
    filter_append3_of_none (by intro h hm; simp [hc2 h hm]) (by intro h hm; simp [hc3 h hm])
  simp only [analyse_combination_hands] at hok
  rw [hq2, hq4] at hok
  by_cases hp2 : ((c1.filter (fun x => x.score.1 == 2)).length == 2) = true
  · -- two pairs
    rw [if_pos hp2] at hok
    have hp2' : (c1.filter (fun x => x.score.1 == 2)).length = 2 := by simpa using hp2
    obtain ⟨a, b, hab⟩ := List.length_eq_two.mp hp2'
    obtain ⟨na, nb, hnanb, hRa, hRb⟩ := forall₂_filter_two hfa hnd hab
    have haq : a.score.1 = 2 := by
      have hma : a ∈ c1.filter (fun x => x.score.1 == 2) := by
        rw [hab]; exact List.mem_cons_self _ _
      simpa using (List.mem_filter.mp hma).2
    have hbq : b.score.1 = 2 := by
      have hmb : b ∈ c1.filter (fun x => x.score.1 == 2) := by
        rw [hab]; exact List.mem_cons_of_mem _ (List.mem_cons_self _ _)
      simpa using (List.mem_filter.mp hmb).2
    have hla : a.hand_cards.length = 2 := by
      rcases candProp_hand_len hRa haq with ⟨h1, h2⟩ | ⟨h1, h2⟩ | ⟨h1, h2⟩ | ⟨h1, h2⟩ <;> omega
    have hlb : b.hand_cards.length = 2 := by
      rcases candProp_hand_len hRb hbq with ⟨h1, h2⟩ | ⟨h1, h2⟩ | ⟨h1, h2⟩ | ⟨h1, h2⟩ <;> omega
    split at hok
    · -- all-scalar guard passed; now the sorted pair list
      have hsperm := pySorted_perm (fun a b => scalarKey b < scalarKey a)
        (c1.filter (fun x => x.score.1 == 2))
      rcases hsort : pySorted (fun a b => scalarKey b < scalarKey a)
          (c1.filter (fun x => x.score.1 == 2)) with _ | ⟨p0, _ | ⟨p1, tl⟩⟩
      · rw [hsort, hab] at hsperm
        have := hsperm.length_eq
        simp at this
      · rw [hsort, hab] at hsperm
        have := hsperm.length_eq
        simp at this
      · have htl : tl = [] := by
          rw [hsort, hab] at hsperm
          have hle := hsperm.length_eq
          simp only [List.length_cons] at hle
          have : tl.length = 0 := by simpa using hle
          exact List.length_eq_zero.mp this
        subst htl
        have hpp : ([p0, p1]).Perm [a, b] := by
          rw [hsort, hab] at hsperm
          exact hsperm
        simp only [hsort] at hok
        rcases perm_pair_cases hpp with ⟨rfl, rfl⟩ | ⟨rfl, rfl⟩
        · obtain ⟨c5, hc5, hpermfin⟩ :=
            two_pairs_branch_inv hlen hstr hnanb hRa hRb hla hlb
          rw [hc5] at hok
          simp only [List.getLast?_singleton] at hok
          cases hok
          intro h hmem
          rw [List.mem_singleton.mp hmem]
          simp only [Option.getD_some]
          exact List.toFinset_eq_of_perm _ _ hpermfin
        · obtain ⟨c5, hc5, hpermfin⟩ :=
            two_pairs_branch_inv hlen hstr (Ne.symm hnanb) hRb hRa hlb hla
          rw [hc5] at hok
          simp only [List.getLast?_singleton] at hok
          cases hok
          intro h hmem
          rw [List.mem_singleton.mp hmem]
          simp only [Option.getD_some]
          exact List.toFinset_eq_of_perm _ _ hpermfin
    · cases hok
  · -- not two pairs
    rw [if_neg hp2] at hok
    by_cases hp41 : (((c1.filter (fun x => x.score.1 == 4)).length == 1)
        && ((c1.filter (fun x => x.score.1 == 2)).length == 1)) = true
    · -- full house
      rw [if_pos hp41] at hok
      have hp4' : (c1.filter (fun x => x.score.1 == 4)).length = 1 := by
        have := (Bool.and_eq_true _ _).mp hp41
        simpa using this.1
      have hp2'' : (c1.filter (fun x => x.score.1 == 2)).length = 1 := by
        have := (Bool.and_eq_true _ _).mp hp41
        simpa using this.2
      obtain ⟨t0, ht0⟩ := List.length_eq_one.mp hp4'
      obtain ⟨p0, hpz⟩ := List.length_eq_one.mp hp2''
      obtain ⟨nt, hntm, hRt⟩ := forall₂_filter_one hfa ht0
      obtain ⟨np, hnpm, hRp⟩ := forall₂_filter_one hfa hpz
      have htq : t0.score.1 = 4 := by
        have hmt : t0 ∈ c1.filter (fun x => x.score.1 == 4) := by
          rw [ht0]; exact List.mem_cons_self _ _
        simpa using (List.mem_filter.mp hmt).2
      have hpq : p0.score.1 = 2 := by
        have hmp : p0 ∈ c1.filter (fun x => x.score.1 == 2) := by
          rw [hpz]; exact List.mem_cons_self _ _
        simpa using (List.mem_filter.mp hmp).2
      have hlt : t0.hand_cards.length = 3 := by
        rcases candProp_hand_len hRt htq with ⟨h1, h2⟩ | ⟨h1, h2⟩ | ⟨h1, h2⟩ | ⟨h1, h2⟩ <;> omega
      have hlp : p0.hand_cards.length = 2 := by
        rcases candProp_hand_len hRp hpq with ⟨h1, h2⟩ | ⟨h1, h2⟩ | ⟨h1, h2⟩ | ⟨h1, h2⟩ <;> omega
      have hne : nt ≠ np := by
        intro heq
        have h3 : (cards.filter (fun c => c.number == nt)).length = 3 := by
          rw [candProp_filter_len hRt, hlt]
        have h2' : (cards.filter (fun c => c.number == np)).length = 2 := by
          rw [candProp_filter_len hRp, hlp]
        rw [heq] at h3
        omega
      have hsect : secIsPair t0.score.2 = false := by
        obtain ⟨-, ⟨prim, -, hsc⟩, -⟩ := hRt
        rw [hsc]
        rfl
      have hsecp : secIsPair p0.score.2 = false := by
        obtain ⟨-, ⟨prim, -, hsc⟩, -⟩ := hRp
        rw [hsc]
        rfl
      rw [ht0, hpz] at hok
      simp only [hsect, hsecp, Bool.not_false, Bool.and_self, if_true] at hok
      cases hok
      intro h hmem
      rw [List.mem_singleton.mp hmem]
      simp only [Option.getD_none, List.append_nil]
      exact List.toFinset_eq_of_perm _ _
        (full_house_branch_inv hlen hne hRt hRp hlt hlp)
    · -- not full house: straight flush or nothing
      rw [if_neg hp41] at hok
      split at hok
      · split at hok
        · split at hok
          · split at hok
            · cases hok
              intro h hmem
              rw [List.mem_singleton.mp hmem]
              simp
            · split at hok
              · cases hok
                intro h hmem
                rw [List.mem_singleton.mp hmem]
                simp
              · cases hok
          · cases hok
        · cases hok
      · cases hok
        intro h hmem
        cases hmem

theorem analyse_poker_hand_ok {cards : List Card} {h : PokerHand}
    (hok : analyse_poker_hand cards = Except.ok h) :
    ∃ c1 c2 c3 c4 ki,
      analyse_same_number_hands cards = Except.ok c1 ∧
      analyse_flush cards = Except.ok c2 ∧
      analyse_straight cards = Except.ok c3 ∧
      analyse_combination_hands cards (c1 ++ c2 ++ c3) = Except.ok c4 ∧
      order_hands (c1 ++ c2 ++ c3 ++ c4) = Except.ok (h, ki) := by
  cases h1 : analyse_same_number_hands cards with
  | error e =>
    simp only [analyse_poker_hand, h1] at hok
    cases hok
  | ok c1 =>
    cases h2 : analyse_flush cards with
    | error e =>
      simp only [analyse_poker_hand, h1, h2] at hok
      cases hok
    | ok c2 =>
      cases h3 : analyse_straight cards with
      | error e =>
        simp only [analyse_poker_hand, h1, h2, h3] at hok
        cases hok
      | ok c3 =>
        cases h4 : analyse_combination_hands cards (c1 ++ c2 ++ c3) with
        | error e =>
          simp only [analyse_poker_hand, h1, h2, h3, h4] at hok
          cases hok
        | ok c4 =>
          cases h5 : order_hands (c1 ++ c2 ++ c3 ++ c4) with
          | error e =>
            simp only [analyse_poker_hand, h1, h2, h3, h4, h5] at hok
            cases hok
          | ok pr =>
            obtain ⟨best, ki⟩ := pr
            refine ⟨c1, c2, c3, c4, ki, rfl, rfl, rfl, h4, ?_⟩
            simp only [analyse_poker_hand, h1, h2, h3, h4, h5, Except.ok.injEq] at hok
            rw [h5, hok]

/-- C1: whenever the evaluator returns a `PokerHand` for a 5-card hand of
string-distinct cards, the union of its hand cards and kickers is exactly
the original 5-card set, with no duplicates and no omissions. -/
theorem eval_partition_invariant (input : List Card) (h : PokerHand)
    (hlen : input.length = 5) (hstr : (input.map cardStr).Nodup)
    (hok : evaluateHand input = Except.ok h) :
    (h.hand_cards ++ h.kickers.getD []).toFinset = input.toFinset := by
  have hperm : (handSortedCards input).Perm input := by
    unfold handSortedCards
    exact pySorted_perm _ input
  have hlen' : (handSortedCards input).length = 5 := by
    rw [hperm.length_eq, hlen]
  have hstr' : ((handSortedCards input).map cardStr).Nodup :=
    ((hperm.map cardStr).nodup_iff).mpr hstr
  have hok' : analyse_poker_hand (handSortedCards input) = Except.ok h := hok
  obtain ⟨c1, c2, c3, c4, ki, h1, h2, h3, h4, h5⟩ := analyse_poker_hand_ok hok'
  have hmem := order_hands_mem h5
  obtain ⟨ns, hnd, hfa⟩ := analyse_same_number_spec hstr' h1
  have hflush := analyse_flush_spec h2
  have hstraight := analyse_straight_spec h3
  have htf : (handSortedCards input).toFinset = input.toFinset :=
    List.toFinset_eq_of_perm _ _ hperm
  rw [← htf]
  rcases List.mem_append.mp hmem with hmem' | hmem4
  · rcases List.mem_append.mp hmem' with hmem'' | hmem3
    · rcases List.mem_append.mp hmem'' with hmem1 | hmem2
      · obtain ⟨n, -, hp⟩ := forall₂_mem_left hfa hmem1
        obtain ⟨hhc, -, ks, hks, hksperm, -⟩ := hp
        rw [hks]
        simp only [Option.getD_some]
        refine List.toFinset_eq_of_perm _ _ ?_
        refine List.Perm.trans (hhc.append hksperm) ?_
        exact List.filter_append_perm (fun c => c.number == n) (handSortedCards input)
      · obtain ⟨-, hhc, hkk⟩ := hflush h hmem2
        rw [hhc, hkk]
        simp only [Option.getD_some]
        rw [List.toFinset_append]
        simp
    · obtain ⟨-, hhc, hkk⟩ := hstraight h hmem3
      rw [hhc, hkk]
      simp
  · exact analyse_combination_inv hlen' hstr' hnd hfa
      (fun x hm => (hflush x hm).1) (fun x hm => (hstraight x hm).1) h4 h hmem4

/-- C9: evaluation is deterministic and idempotent - two evaluations of
the same card list agree on description, score, hand cards and kickers;
the evaluator is a pure function of its input. -/
theorem eval_deterministic (input : List Card) (h1 h2 : PokerHand)
    (e1 : evaluateHand input = Except.ok h1) (e2 : evaluateHand input = Except.ok h2) :
    h1.description = h2.description ∧ h1.score = h2.score ∧
      h1.hand_cards = h2.hand_cards ∧ h1.kickers = h2.kickers := by
  have h12 : h1 = h2 := Except.ok.inj (e1.symm.trans e2)
  rw [h12]
  exact ⟨rfl, rfl, rfl, rfl⟩

/-- C10: ranking a single hand returns that hand with kicker index -2,
with no kicker comparison at all - even when its `kickers` is `none`. -/
theorem order_hands_singleton (h : PokerHand) :
    order_hands [h] = Except.ok (h, -2) := by
  cases hsec : h.score.2 with
  | scalar n =>
    simp [order_hands, pySorted, insertSorted, rankScalarSecondaries,
      rankTupleSecondaries, secIsPair, hsec]
  | pair a b =>
    simp [order_hands, pySorted, insertSorted, rankScalarSecondaries,
      rankTupleSecondaries, secIsPair, hsec]

/-- C8: drawing fails with the exhaustion error exactly on an empty deck;
on a non-empty deck it returns the top (last) card, and the deck then
holds exactly the previous cards minus the returned one. -/
theorem pick_card_spec (d : Deck) :
    (d.cards = [] → Deck.pick_card d = Except.error "The deck is empty!") ∧
    (d.cards ≠ [] → ∃ c d2, Deck.pick_card d = Except.ok (c, d2) ∧
      d.cards.getLast? = some c ∧ d2.cards ++ [c] = d.cards) := by
  constructor
  · intro hnil
    simp [Deck.pick_card, hnil]
  · intro hne
    have hlen : d.cards.length ≠ 0 := by
      intro h0
      exact hne (List.length_eq_zero.mp h0)
    refine ⟨d.cards.getLast hne, ⟨d.cards.dropLast⟩, ?_, ?_, ?_⟩
    · simp only [Deck.pick_card]
      rw [if_neg (by simpa using hlen), List.getLast?_eq_getLast d.cards hne]
    · exact List.getLast?_eq_getLast d.cards hne
    · exact List.dropLast_append_getLast hne

theorem pick_card_spec_witness :
    ∃ c d2, Deck.pick_card ⟨[⟨5, "club"⟩, ⟨7, "heart"⟩]⟩ = Except.ok (c, d2) ∧
      ([⟨5, "club"⟩, ⟨7, "heart"⟩] : List Card).getLast? = some c ∧
      d2.cards ++ [c] = [⟨5, "club"⟩, ⟨7, "heart"⟩] :=
  (pick_card_spec ⟨[⟨5, "club"⟩, ⟨7, "heart"⟩]⟩).2 (by simp)

/-- C6: the all-clubs ace-king-queen-jack-10 hand evaluates to a Royal
Flush with primary score 9, secondary score 14, all five cards as hand
cards, and no kickers. -/
theorem royal_flush_eval :
    evaluateHand [⟨1, "club"⟩, ⟨13, "club"⟩, ⟨12, "club"⟩, ⟨11, "club"⟩, ⟨10, "club"⟩]
      = Except.ok ⟨"Royal Flush", (9, Sec.scalar 14),
          [⟨1, "club"⟩, ⟨13, "club"⟩, ⟨12, "club"⟩, ⟨11, "club"⟩, ⟨10, "club"⟩], none⟩ := by
  decide

/-- C3 (the always-truthy tuple filter): with two tied Two-pairs hands of
Kings and Jacks and a third Two-pairs hand of Queens and 10s holding an
ace kicker, the ranker's kicker comparison fails to exclude the hand with
the lower secondary score - the tuple-predicate filter keeps every hand -
so the Queens-and-10s hand wins on its ace kicker with kicker index 1. -/
theorem order_hands_tuple_filter_always_true :
    order_hands
      [⟨"Two pairs, Kings and Jacks", (3, Sec.pair 13 11),
          [⟨13, "club"⟩, ⟨13, "heart"⟩, ⟨11, "club"⟩, ⟨11, "heart"⟩], some [⟨2, "diamond"⟩]⟩,
       ⟨"Two pairs, Kings and Jacks", (3, Sec.pair 13 11),
          [⟨13, "spade"⟩, ⟨13, "diamond"⟩, ⟨11, "spade"⟩, ⟨11, "diamond"⟩], some [⟨3, "heart"⟩]⟩,
       ⟨"Two pairs, Queens and 10s", (3, Sec.pair 12 10),
          [⟨12, "club"⟩, ⟨12, "heart"⟩, ⟨10, "club"⟩, ⟨10, "heart"⟩], some [⟨1, "club"⟩]⟩]
      = Except.ok (⟨"Two pairs, Queens and 10s", (3, Sec.pair 12 10),
          [⟨12, "club"⟩, ⟨12, "heart"⟩, ⟨10, "club"⟩, ⟨10, "heart"⟩], some [⟨1, "club"⟩]⟩, 1) := by
  decide

theorem analyse_same_number_five {cards : List Card} {n : Nat}
    (hlen : cards.length = 5) (hall : ∀ c ∈ cards, c.number = n) :
    analyse_same_number_hands cards
      = Except.error "Five of a kind? You've implemented picking from multiple decks?" := by
  rcases cards with _ | ⟨c0, _ | ⟨c1, _ | ⟨c2, _ | ⟨c3, _ | ⟨c4, _ | ⟨c5, t⟩⟩⟩⟩⟩⟩
  · simp at hlen
  · simp at hlen
  · simp at hlen
  · simp at hlen
  · simp at hlen
  · have hn0 : c0.number = n := hall c0 (by simp)
    have hfil : ([c1, c2, c3, c4].filter (fun x => x.number == c0.number))
        = [c1, c2, c3, c4] := by
      rw [List.filter_eq_self]
      intro a ha
      have han : a.number = n := by
        refine hall a ?_
        simp only [List.mem_cons] at ha ⊢
        tauto
      simp [han, hn0]
    show sameNumberGo _ _ _ = _
    simp only [sameNumberGo]
    rw [if_pos (by simp), hfil]
    rfl
  · simp at hlen

/-- C7: a 5-card hand whose cards all share one rank makes the evaluator
fail loudly with the five-of-a-kind invariant error, and this situation
is unreachable for 5 distinct cards drawn from a correctly constructed
52-card deck. -/
theorem five_of_a_kind_error :
    (∀ (cards : List Card) (n : Nat), cards.length = 5 → (∀ c ∈ cards, c.number = n) →
      evaluateHand cards
        = Except.error "Five of a kind? You've implemented picking from multiple decks?") ∧
    (∀ cards : List Card, cards.length = 5 → cards.Nodup →
      (∀ c ∈ cards, c ∈ deckCards) → ¬ ∃ n, ∀ c ∈ cards, c.number = n) := by
  constructor
  · intro cards n hlen hall
    have hperm : (handSortedCards cards).Perm cards := by
      unfold handSortedCards
      exact pySorted_perm _ cards
    have hlen' : (handSortedCards cards).length = 5 := by
      rw [hperm.length_eq, hlen]
    have hall' : ∀ c ∈ handSortedCards cards, c.number = n :=
      fun c hc => hall c (hperm.mem_iff.mp hc)
    have h1 := analyse_same_number_five hlen' hall'
    show analyse_poker_hand (handSortedCards cards) = _
    simp only [analyse_poker_hand, h1]
  · intro cards hlen hnd hdeck hex
    obtain ⟨n, hall⟩ := hex
    have hdsuit : ∀ c ∈ deckCards, c.suit ∈ (["spade", "heart", "diamond", "club"] : List String) := by
      decide
    have hsuits : ∀ c ∈ cards, c.suit ∈ (["spade", "heart", "diamond", "club"] : List String) :=
      fun c hc => hdsuit c (hdeck c hc)
    have hmapnd : (cards.map Card.suit).Nodup := by
      refine List.Nodup.map_on ?_ hnd
      intro x hx y hy hxy
      have hx' : x.number = n := hall x hx
      have hy' : y.number = n := hall y hy
      cases x
      cases y
      simp only at hxy hx' hy'
      simp [hx', hy', hxy]
    have h1 : (cards.map Card.suit).toFinset.card = 5 := by
      rw [List.toFinset_card_of_nodup hmapnd]
      simp [hlen]
    have hsub : (cards.map Card.suit).toFinset
        ⊆ (["spade", "heart", "diamond", "club"] : List String).toFinset := by
      intro s hs
      simp only [List.mem_toFinset] at hs ⊢
      obtain ⟨c, hc, rfl⟩ := List.mem_map.mp hs
      exact hsuits c hc
    have h2 := Finset.card_le_card hsub
    rw [h1] at h2
    have h3 : (["spade", "heart", "diamond", "club"] : List String).toFinset.card = 4 := by
      decide
    omega

/-- C4: in every rank-group candidate the kickers are exactly the input
cards outside the rank group, sorted descending by raw rank `number`
(not by points); concretely, in the king-pair hand with an ace the pair
candidate's kickers are 7, 3, ace - the ace sorts last (rank 1) even
though it evaluates as 14 elsewhere. -/
theorem rank_group_kickers_raw_rank :
    (∀ (cards : List Card) (res : List PokerHand),
      (cards.map cardStr).Nodup →
      analyse_same_number_hands cards = Except.ok res →
      ∀ h ∈ res, ∃ n ks, h.kickers = some ks ∧
        (∀ c ∈ h.hand_cards, c.number = n) ∧
        ks.Perm (cards.filter (fun c => !(c.number == n))) ∧
        ks.Pairwise (fun a b => b.number ≤ a.number)) ∧
    (analyse_same_number_hands
        (handSortedCards [⟨13, "club"⟩, ⟨13, "heart"⟩, ⟨1, "club"⟩, ⟨7, "spade"⟩, ⟨3, "heart"⟩])
      = Except.ok
        [⟨"Ace high", (1, Sec.scalar 14), [⟨1, "club"⟩],
            some [⟨13, "club"⟩, ⟨13, "heart"⟩, ⟨7, "spade"⟩, ⟨3, "heart"⟩]⟩,
         ⟨"Pair, Kings", (2, Sec.scalar 13), [⟨13, "club"⟩, ⟨13, "heart"⟩],
            some [⟨7, "spade"⟩, ⟨3, "heart"⟩, ⟨1, "club"⟩]⟩,
         ⟨"7 high", (1, Sec.scalar 7), [⟨7, "spade"⟩],
            some [⟨13, "club"⟩, ⟨13, "heart"⟩, ⟨3, "heart"⟩, ⟨1, "club"⟩]⟩,
         ⟨"3 high", (1, Sec.scalar 3), [⟨3, "heart"⟩],
            some [⟨13, "club"⟩, ⟨13, "heart"⟩, ⟨7, "spade"⟩, ⟨1, "club"⟩]⟩]) := by
  constructor
  · intro cards res hstr hok h hmem
    obtain ⟨ns, hnd, hfa⟩ := analyse_same_number_spec hstr hok
    obtain ⟨n, -, hp⟩ := forall₂_mem_left hfa hmem
    obtain ⟨hhc, -, ks, hks, hksperm, hsorted⟩ := hp
    refine ⟨n, ks, hks, ?_, hksperm, hsorted⟩
    intro c hc
    have hcf : c ∈ cards.filter (fun c => c.number == n) := hhc.mem_iff.mp hc
    simpa using (List.mem_filter.mp hcf).2
  · decide

theorem rank_group_kickers_raw_rank_witness :
    ∃ n ks,
      (⟨"Pair, Kings", (2, Sec.scalar 13), [⟨13, "club"⟩, ⟨13, "heart"⟩],
          some [⟨7, "spade"⟩, ⟨3, "heart"⟩, ⟨1, "club"⟩]⟩ : PokerHand).kickers = some ks ∧
      (∀ c ∈ (⟨"Pair, Kings", (2, Sec.scalar 13), [⟨13, "club"⟩, ⟨13, "heart"⟩],
          some [⟨7, "spade"⟩, ⟨3, "heart"⟩, ⟨1, "club"⟩]⟩ : PokerHand).hand_cards,
        c.number = n) ∧
      ks.Perm ((handSortedCards
          [⟨13, "club"⟩, ⟨13, "heart"⟩, ⟨1, "club"⟩, ⟨7, "spade"⟩, ⟨3, "heart"⟩]).filter
        (fun c => !(c.number == n))) ∧
      ks.Pairwise (fun a b => b.number ≤ a.number) :=
  rank_group_kickers_raw_rank.1
    (handSortedCards [⟨13, "club"⟩, ⟨13, "heart"⟩, ⟨1, "club"⟩, ⟨7, "spade"⟩, ⟨3, "heart"⟩])
    [⟨"Ace high", (1, Sec.scalar 14), [⟨1, "club"⟩],
        some [⟨13, "club"⟩, ⟨13, "heart"⟩, ⟨7, "spade"⟩, ⟨3, "heart"⟩]⟩,
     ⟨"Pair, Kings", (2, Sec.scalar 13), [⟨13, "club"⟩, ⟨13, "heart"⟩],
        some [⟨7, "spade"⟩, ⟨3, "heart"⟩, ⟨1, "club"⟩]⟩,
     ⟨"7 high", (1, Sec.scalar 7), [⟨7, "spade"⟩],
        some [⟨13, "club"⟩, ⟨13, "heart"⟩, ⟨3, "heart"⟩, ⟨1, "club"⟩]⟩,
     ⟨"3 high", (1, Sec.scalar 3), [⟨3, "heart"⟩],
        some [⟨13, "club"⟩, ⟨13, "heart"⟩, ⟨7, "spade"⟩, ⟨1, "club"⟩]⟩]
    (by decide) (by decide) _ (by decide)

/-- C5: a wheel hand - ace, 2, 3, 4, 5, not all of one suit - makes the
straight pass produce exactly one candidate described "Straight, 1 to 5"
with secondary score 5 (not 14); any straight recognized by the direct
points check instead scores the highest card's points as its secondary. -/
theorem straight_wheel_secondary :
    (∀ s1 s2 s3 s4 s5 : String, ¬(s1 = s2 ∧ s2 = s3 ∧ s3 = s4 ∧ s4 = s5) →
      analyse_straight (handSortedCards
          [⟨1, s1⟩, ⟨2, s2⟩, ⟨3, s3⟩, ⟨4, s4⟩, ⟨5, s5⟩])
        = Except.ok [⟨"Straight, 1 to 5", (5, Sec.scalar 5),
            [⟨1, s1⟩, ⟨5, s5⟩, ⟨4, s4⟩, ⟨3, s3⟩, ⟨2, s2⟩], none⟩]) ∧
    (∀ (c0 : Card) (rest : List Card),
      check_straight_go c0.points true (rest.map Card.points) = true →
      ∃ clast, (c0 :: rest).getLast? = some clast ∧
        analyse_straight (c0 :: rest)
          = Except.ok [⟨"Straight, " ++ num_conv clast.points false
              ++ " to " ++ num_conv c0.points false,
              (5, Sec.scalar c0.points), c0 :: rest, none⟩]) := by
  constructor
  · intro s1 s2 s3 s4 s5 _
    rfl
  · intro c0 rest hchk
    have hne : (c0 :: rest) ≠ [] := by simp
    refine ⟨(c0 :: rest).getLast hne, List.getLast?_eq_getLast _ hne, ?_⟩
    simp only [analyse_straight]
    rw [if_pos hchk, List.getLast?_eq_getLast _ hne]

theorem straight_wheel_secondary_witness :
    (analyse_straight (handSortedCards
        [⟨1, "club"⟩, ⟨2, "club"⟩, ⟨3, "club"⟩, ⟨4, "club"⟩, ⟨5, "heart"⟩])
      = Except.ok [⟨"Straight, 1 to 5", (5, Sec.scalar 5),
          [⟨1, "club"⟩, ⟨5, "heart"⟩, ⟨4, "club"⟩, ⟨3, "club"⟩, ⟨2, "club"⟩], none⟩]) ∧
    (∃ clast, (([⟨8, "heart"⟩, ⟨7, "club"⟩, ⟨6, "spade"⟩, ⟨5, "club"⟩, ⟨4, "diamond"⟩] :
        List Card)).getLast? = some clast ∧
      analyse_straight [⟨8, "heart"⟩, ⟨7, "club"⟩, ⟨6, "spade"⟩, ⟨5, "club"⟩, ⟨4, "diamond"⟩]
        = Except.ok [⟨"Straight, " ++ num_conv clast.points false
            ++ " to " ++ num_conv (Card.points ⟨8, "heart"⟩) false,
            (5, Sec.scalar (Card.points ⟨8, "heart"⟩)),
            [⟨8, "heart"⟩, ⟨7, "club"⟩, ⟨6, "spade"⟩, ⟨5, "club"⟩, ⟨4, "diamond"⟩], none⟩]) :=
  ⟨straight_wheel_secondary.1 "club" "club" "club" "club" "heart" (by decide),
   straight_wheel_secondary.2 ⟨8, "heart"⟩
     [⟨7, "club"⟩, ⟨6, "spade"⟩, ⟨5, "club"⟩, ⟨4, "diamond"⟩] (by decide)⟩

theorem eval_partition_invariant_witness :
    ((⟨"Two pairs, Aces and Jacks", (3, Sec.pair 14 11),
        [⟨1, "club"⟩, ⟨1, "heart"⟩, ⟨11, "spade"⟩, ⟨11, "heart"⟩],
        some [⟨13, "diamond"⟩]⟩ : PokerHand).hand_cards
      ++ (⟨"Two pairs, Aces and Jacks", (3, Sec.pair 14 11),
        [⟨1, "club"⟩, ⟨1, "heart"⟩, ⟨11, "spade"⟩, ⟨11, "heart"⟩],
        some [⟨13, "diamond"⟩]⟩ : PokerHand).kickers.getD []).toFinset
      = ([⟨1, "club"⟩, ⟨1, "heart"⟩, ⟨11, "spade"⟩, ⟨11, "heart"⟩,
          ⟨13, "diamond"⟩] : List Card).toFinset :=
  eval_partition_invariant
    [⟨1, "club"⟩, ⟨1, "heart"⟩, ⟨11, "spade"⟩, ⟨11, "heart"⟩, ⟨13, "diamond"⟩]
    ⟨"Two pairs, Aces and Jacks", (3, Sec.pair 14 11),
      [⟨1, "club"⟩, ⟨1, "heart"⟩, ⟨11, "spade"⟩, ⟨11, "heart"⟩], some [⟨13, "diamond"⟩]⟩
    (by decide) (by decide) (by decide)

theorem eval_deterministic_witness :
    (⟨"Royal Flush", (9, Sec.scalar 14),
        [⟨1, "club"⟩, ⟨13, "club"⟩, ⟨12, "club"⟩, ⟨11, "club"⟩, ⟨10, "club"⟩],
        none⟩ : PokerHand).description
      = (⟨"Royal Flush", (9, Sec.scalar 14),
        [⟨1, "club"⟩, ⟨13, "club"⟩, ⟨12, "club"⟩, ⟨11, "club"⟩, ⟨10, "club"⟩],
        none⟩ : PokerHand).description ∧
    (⟨"Royal Flush", (9, Sec.scalar 14),
        [⟨1, "club"⟩, ⟨13, "club"⟩, ⟨12, "club"⟩, ⟨11, "club"⟩, ⟨10, "club"⟩],
        none⟩ : PokerHand).score
      = (⟨"Royal Flush", (9, Sec.scalar 14),
        [⟨1, "club"⟩, ⟨13, "club"⟩, ⟨12, "club"⟩, ⟨11, "club"⟩, ⟨10, "club"⟩],
        none⟩ : PokerHand).score ∧
    (⟨"Royal Flush", (9, Sec.scalar 14),
        [⟨1, "club"⟩, ⟨13, "club"⟩, ⟨12, "club"⟩, ⟨11, "club"⟩, ⟨10, "club"⟩],
        none⟩ : PokerHand).hand_cards
      = (⟨"Royal Flush", (9, Sec.scalar 14),
        [⟨1, "club"⟩, ⟨13, "club"⟩, ⟨12, "club"⟩, ⟨11, "club"⟩, ⟨10, "club"⟩],
        none⟩ : PokerHand).hand_cards ∧
    (⟨"Royal Flush", (9, Sec.scalar 14),
        [⟨1, "club"⟩, ⟨13, "club"⟩, ⟨12, "club"⟩, ⟨11, "club"⟩, ⟨10, "club"⟩],
        none⟩ : PokerHand).kickers
      = (⟨"Royal Flush", (9, Sec.scalar 14),
        [⟨1, "club"⟩, ⟨13, "club"⟩, ⟨12, "club"⟩, ⟨11, "club"⟩, ⟨10, "club"⟩],
        none⟩ : PokerHand).kickers :=
  eval_deterministic
    [⟨1, "club"⟩, ⟨13, "club"⟩, ⟨12, "club"⟩, ⟨11, "club"⟩, ⟨10, "club"⟩]
    ⟨"Royal Flush", (9, Sec.scalar 14),
      [⟨1, "club"⟩, ⟨13, "club"⟩, ⟨12, "club"⟩, ⟨11, "club"⟩, ⟨10, "club"⟩], none⟩
    ⟨"Royal Flush", (9, Sec.scalar 14),
      [⟨1, "club"⟩, ⟨13, "club"⟩, ⟨12, "club"⟩, ⟨11, "club"⟩, ⟨10, "club"⟩], none⟩
    (by decide) (by decide)

theorem five_of_a_kind_error_witness :
    (evaluateHand [⟨13, "club"⟩, ⟨13, "heart"⟩, ⟨13, "diamond"⟩, ⟨13, "spade"⟩, ⟨13, "club"⟩]
      = Except.error "Five of a kind? You've implemented picking from multiple decks?") ∧
    ¬ ∃ n, ∀ c ∈ ([⟨1, "club"⟩, ⟨2, "club"⟩, ⟨3, "heart"⟩, ⟨4, "spade"⟩, ⟨5, "club"⟩] :
        List Card), c.number = n :=
  ⟨five_of_a_kind_error.1
      [⟨13, "club"⟩, ⟨13, "heart"⟩, ⟨13, "diamond"⟩, ⟨13, "spade"⟩, ⟨13, "club"⟩] 13
      (by decide) (by decide),
   five_of_a_kind_error.2
      [⟨1, "club"⟩, ⟨2, "club"⟩, ⟨3, "heart"⟩, ⟨4, "spade"⟩, ⟨5, "club"⟩]
      (by decide) (by decide) (by decide)⟩

theorem detKickerIdx_neg_one :
    ∀ (ks0 ks1 : List Nat) (s : Nat),
      detKickerIdx ks0 ks1 s = Except.ok (-1) ↔
        ∀ i, i < ks0.length → ks1[s + i]? = ks0[i]? := by
  intro ks0 ks1 s
  induction ks0, ks1, s using detKickerIdx.induct with
  | case1 ks1 s => simp [detKickerIdx]
  | case2 ks1 s k ks hnone =>
    simp only [detKickerIdx, hnone]
    constructor
    · intro h
      cases h
    · intro hall
      have h0 := hall 0 (by simp)
      rw [Nat.add_zero, hnone] at h0
      simp at h0
  | case3 ks1 s k ks p hsome hne =>
    simp only [detKickerIdx, hsome, if_pos hne]
    constructor
    · intro h
      simp only [Except.ok.injEq] at h
      omega
    · intro hall
      have h0 := hall 0 (by simp)
      rw [Nat.add_zero, hsome] at h0
      simp only [List.getElem?_cons_zero, Option.some.injEq] at h0
      exact absurd h0 hne
  | case4 ks1 s k ks p hsome hpk ih =>
    have hpk' : p = k := not_ne_iff.mp hpk
    simp only [detKickerIdx, hsome, if_neg hpk]
    rw [ih]
    constructor
    · intro hall i hi
      cases i with
      | zero =>
        rw [Nat.add_zero, hsome, hpk']
        simp
      | succ j =>
        have hh := hall j (by simpa using hi)
        rw [show s + (j + 1) = s + 1 + j by omega]
        simpa using hh
    · intro hall j hj
      have hh := hall (j + 1) (by simpa using hj)
      rw [show s + 1 + j = s + (j + 1) by omega]
      simpa using hh

theorem detKickerIdx_pos :
    ∀ (ks0 ks1 : List Nat) (s : Nat) (r : Int),
      detKickerIdx ks0 ks1 s = Except.ok r →
      ∀ i : Nat, (r = ((s + i : Nat) : Int) + 1 ↔
        ((∀ j, j < i → ks1[s + j]? = ks0[j]?) ∧
         ∃ p0 p1, ks0[i]? = some p0 ∧ ks1[s + i]? = some p1 ∧ p1 ≠ p0)) := by
  intro ks0 ks1 s
  induction ks0, ks1, s using detKickerIdx.induct with
  | case1 ks1 s =>
    intro r h i
    simp only [detKickerIdx, Except.ok.injEq] at h
    constructor
    · intro habs
      rw [← h] at habs
      exact absurd habs (by omega)
    · rintro ⟨-, p0, p1, hp0, -, -⟩
      simp at hp0
  | case2 ks1 s k ks hnone =>
    intro r h i
    simp only [detKickerIdx, hnone] at h
    cases h
  | case3 ks1 s k ks p hsome hne =>
    intro r h i
    simp only [detKickerIdx, hsome, if_pos hne, Except.ok.injEq] at h
    constructor
    · intro heq
      have hi0 : i = 0 := by omega
      subst hi0
      refine ⟨fun j hj => absurd hj (by omega), k, p, by simp, ?_, hne⟩
      rw [Nat.add_zero]
      exact hsome
    · rintro ⟨hpre, p0, p1, hp0, hp1, hnep⟩
      by_cases hi : i = 0
      · subst hi
        rw [← h]
        simp
      · exfalso
        have h0 := hpre 0 (by omega)
        rw [Nat.add_zero, hsome] at h0
        simp only [List.getElem?_cons_zero, Option.some.injEq] at h0
        exact hne h0
  | case4 ks1 s k ks p hsome hpk ih =>
    intro r h i
    have hpk' : p = k := not_ne_iff.mp hpk
    simp only [detKickerIdx, hsome, if_neg hpk] at h
    have IH := ih r h
    constructor
    · intro heq
      cases i with
      | zero =>
        exfalso
        rcases detKickerIdx_range ks ks1 (s + 1) r h with h1 | ⟨m, hm, hr⟩
        · omega
        · omega
      | succ j =>
        have hj := (IH j).mp (by omega)
        obtain ⟨hpre, p0, p1, hp0, hp1, hnep⟩ := hj
        refine ⟨?_, p0, p1, by simpa using hp0, ?_, hnep⟩
        · intro jj hjj
          cases jj with
          | zero =>
            rw [Nat.add_zero, hsome, hpk']
            simp
          | succ m =>
            have hh := hpre m (by omega)
            rw [show s + (m + 1) = s + 1 + m by omega]
            simpa using hh
        · rw [show s + (j + 1) = s + 1 + j by omega]
          exact hp1
    · rintro ⟨hpre, p0, p1, hp0, hp1, hnep⟩
      cases i with
      | zero =>
        exfalso
        rw [Nat.add_zero, hsome] at hp1
        simp only [List.getElem?_cons_zero, Option.some.injEq] at hp0 hp1
        exact hnep (by rw [← hp1, ← hp0, hpk'])
      | succ j =>
        have hres : r = ((s + 1 + j : Nat) : Int) + 1 := by
          refine (IH j).mpr ⟨?_, p0, p1, by simpa using hp0, ?_, hnep⟩
          · intro m hm
            have hh := hpre (m + 1) (by omega)
            rw [show s + (m + 1) = s + 1 + m by omega] at hh
            simpa using hh
          · rw [show s + 1 + j = s + (j + 1) by omega]
            exact hp1
        omega

theorem sort_by_high_cards_spec {hs ranked : List PokerHand} {ki : Int}
    (hok : sort_by_high_cards hs = Except.ok (ranked, ki)) (hlen : 2 ≤ hs.length) :
    ∃ h0 h1 tl, ranked = h0 :: h1 :: tl ∧
      (ki = -1 ↔ ∀ i, i < (kickerPointsList h0).length →
        (kickerPointsList h1)[i]? = (kickerPointsList h0)[i]?) ∧
      (∀ i : Nat, ki = (i : Int) + 1 ↔
        ((∀ j, j < i → (kickerPointsList h1)[j]? = (kickerPointsList h0)[j]?) ∧
         ∃ p0 p1, (kickerPointsList h0)[i]? = some p0 ∧
           (kickerPointsList h1)[i]? = some p1 ∧ p1 ≠ p0)) := by
  have hperm := pySorted_perm (fun a b => listLexLt (kickerPointsList b) (kickerPointsList a)) hs
  rcases hsort : pySorted (fun a b => listLexLt (kickerPointsList b) (kickerPointsList a)) hs with
    _ | ⟨h0, _ | ⟨h1, tl⟩⟩
  · rw [hsort] at hperm
    have hle := hperm.length_eq
    simp only [List.length_nil] at hle
    omega
  · rw [hsort] at hperm
    have hle := hperm.length_eq
    simp only [List.length_singleton] at hle
    omega
  · simp only [sort_by_high_cards, hsort] at hok
    split at hok
    · cases hkp : kickerPointsList h0 with
      | nil =>
        simp only [hkp] at hok
        simp only [Except.ok.injEq, Prod.mk.injEq] at hok
        refine ⟨h0, h1, tl, hok.1.symm, ?_, ?_⟩
        · constructor
          · intro _ i hi
            rw [hkp] at hi
            simp at hi
          · intro _
            exact hok.2.symm
        · intro i
          constructor
          · intro habs
            rw [← hok.2] at habs
            exact absurd habs (by omega)
          · rintro ⟨-, p0, p1, hp0, -, -⟩
            rw [hkp] at hp0
            simp at hp0
      | cons kp0 kps =>
        simp only [hkp] at hok
        cases hdet : detKickerIdx (kp0 :: kps) (kickerPointsList h1) 0 with
        | error e =>
          simp only [hdet] at hok
          cases hok
        | ok idx =>
          simp only [hdet] at hok
          simp only [Except.ok.injEq, Prod.mk.injEq] at hok
          obtain ⟨hr, hki⟩ := hok
          have hdet' : detKickerIdx (kickerPointsList h0) (kickerPointsList h1) 0
              = Except.ok ki := by
            rw [hkp, hdet, hki]
          refine ⟨h0, h1, tl, hr.symm, ?_, ?_⟩
          · constructor
            · intro hkim1
              have hd1 : detKickerIdx (kickerPointsList h0) (kickerPointsList h1) 0
                  = Except.ok (-1) := by
                rw [hdet', hkim1]
              have hh := (detKickerIdx_neg_one (kickerPointsList h0)
                (kickerPointsList h1) 0).mp hd1
              intro i hi
              have hres := hh i hi
              simpa using hres
            · intro hall
              have hh := (detKickerIdx_neg_one (kickerPointsList h0)
                  (kickerPointsList h1) 0).mpr (by
                intro i hi
                simpa using hall i hi)
              rw [hdet'] at hh
              exact (Except.ok.inj hh)
          · intro i
            have hp := detKickerIdx_pos (kickerPointsList h0) (kickerPointsList h1) 0 ki hdet' i
            constructor
            · intro heq
              have hkieq : ki = ((0 + i : Nat) : Int) + 1 := by
                rw [heq]
                norm_num
              obtain ⟨hpre, p0, p1, hp0, hp1, hnep⟩ := hp.mp hkieq
              refine ⟨?_, p0, p1, hp0, by simpa using hp1, hnep⟩
              intro j hj
              simpa using hpre j hj
            · rintro ⟨hpre, p0, p1, hp0, hp1, hnep⟩
              have hshift : (∀ j, j < i → (kickerPointsList h1)[0 + j]?
                  = (kickerPointsList h0)[j]?) := by
                intro j hj
                simpa using hpre j hj
              have hp1' : (kickerPointsList h1)[0 + i]? = some p1 := by simpa using hp1
              have hres := hp.mpr ⟨hshift, p0, p1, hp0, hp1', hnep⟩
              rw [hres]
              norm_num
    · cases hok

theorem kickerFallback_spec {filtered : List PokerHand} {w : PokerHand} {ki : Int}
    (hok : kickerFallback filtered = Except.ok (w, ki)) (hlen : 2 ≤ filtered.length) :
    ki ≠ -2 ∧ ∃ ranked h0 h1 tl,
      sort_by_high_cards filtered = Except.ok (ranked, ki) ∧
      ranked = h0 :: h1 :: tl ∧ w = h0 ∧
      (ki = -1 ↔ ∀ i, i < (kickerPointsList h0).length →
        (kickerPointsList h1)[i]? = (kickerPointsList h0)[i]?) ∧
      (∀ i : Nat, ki = (i : Int) + 1 ↔
        ((∀ j, j < i → (kickerPointsList h1)[j]? = (kickerPointsList h0)[j]?) ∧
         ∃ p0 p1, (kickerPointsList h0)[i]? = some p0 ∧
           (kickerPointsList h1)[i]? = some p1 ∧ p1 ≠ p0)) := by
  cases hsb : sort_by_high_cards filtered with
  | error e =>
    simp only [kickerFallback, hsb] at hok
    cases hok
  | ok pr =>
    obtain ⟨ks, ki2⟩ := pr
    simp only [kickerFallback, hsb] at hok
    cases ks with
    | nil => cases hok
    | cons w2 tl2 =>
      simp only [Except.ok.injEq, Prod.mk.injEq] at hok
      obtain ⟨hw, hki⟩ := hok
      rw [hw, hki] at hsb
      obtain ⟨h0, h1, tl, hrank, hiff1, hiff2⟩ := sort_by_high_cards_spec hsb hlen
      have hw0 : w = h0 := (List.cons.inj hrank).1
      refine ⟨?_, w :: tl2, h0, h1, tl, by rw [hw, hki], hrank, hw0, hiff1, hiff2⟩
      rcases sort_by_high_cards_ki hsb with h1' | ⟨m, hm⟩
      · omega
      · omega

theorem rankTupleSecondaries_spec {hh : List PokerHand} {w : PokerHand} {ki : Int}
    (hok : rankTupleSecondaries hh = Except.ok (w, ki)) :
    kickerComparisonSpec (tuplePool hh) w ki := by
  rcases hsort : pySorted (fun a b => pairLexLt (pairKey b) (pairKey a)) hh with
    _ | ⟨s0, _ | ⟨s1, tl⟩⟩
  · simp only [rankTupleSecondaries, hsort] at hok
    split at hok <;> cases hok
  · by_cases hall : (hh.all fun x => secIsPair x.score.2) = true
    · simp only [rankTupleSecondaries, hsort, if_pos hall] at hok
      simp only [Except.ok.injEq, Prod.mk.injEq] at hok
      refine Or.inl ⟨hok.2.symm, ?_⟩
      simp only [tuplePool, hsort, if_pos hall]
    · simp only [rankTupleSecondaries, if_neg hall] at hok
      cases hok
  · by_cases hall : (hh.all fun x => secIsPair x.score.2) = true
    · simp only [rankTupleSecondaries, hsort, if_pos hall] at hok
      by_cases hpk : ((pairKey s0).1 == (pairKey s1).1 &&
          (pairKey s0).2 == (pairKey s1).2) = true
      · rw [if_pos hpk] at hok
        have hpool : tuplePool hh = some ((s0 :: s1 :: tl).filter
            (fun x => alwaysTruthyPair (decide ((pairKey x).1 = (pairKey s0).1))
              (decide ((pairKey x).2 = (pairKey s0).2)))) := by
          simp only [tuplePool, hsort, if_pos hall, if_pos hpk]
        obtain ⟨hne, ranked, h0, h1, tl', hsb, hrank, hw0, hiff1, hiff2⟩ :=
          kickerFallback_spec hok (by simp [alwaysTruthyPair])
        exact Or.inr ⟨hne, _, ranked, h0, h1, tl', hpool, hsb, hrank, hw0, hiff1, hiff2⟩
      · rw [if_neg hpk] at hok
        simp only [Except.ok.injEq, Prod.mk.injEq] at hok
        refine Or.inl ⟨hok.2.symm, ?_⟩
        simp only [tuplePool, hsort, if_pos hall, if_neg hpk]
    · simp only [rankTupleSecondaries, if_neg hall] at hok
      cases hok

theorem rankScalarSecondaries_spec {hh : List PokerHand} {w : PokerHand} {ki : Int}
    (hok : rankScalarSecondaries hh = Except.ok (w, ki)) :
    kickerComparisonSpec (scalarPool hh) w ki := by
  rcases hsort : pySorted (fun a b => scalarKey b < scalarKey a) hh with
    _ | ⟨s0, _ | ⟨s1, tl⟩⟩
  · simp only [rankScalarSecondaries, hsort] at hok
    split at hok <;> cases hok
  · by_cases hall : (hh.all fun x => !secIsPair x.score.2) = true
    · simp only [rankScalarSecondaries, hsort, if_pos hall] at hok
      simp only [Except.ok.injEq, Prod.mk.injEq] at hok
      refine Or.inl ⟨hok.2.symm, ?_⟩
      simp only [scalarPool, hsort, if_pos hall]
    · simp only [rankScalarSecondaries, if_neg hall] at hok
      cases hok
  · by_cases hall : (hh.all fun x => !secIsPair x.score.2) = true
    · simp only [rankScalarSecondaries, hsort, if_pos hall] at hok
      by_cases hss : (scalarKey s0 == scalarKey s1) = true
      · rw [if_pos hss] at hok
        have hpool : scalarPool hh = some ((s0 :: s1 :: tl).filter
            (fun x => scalarKey x == scalarKey s0)) := by
          simp only [scalarPool, hsort, if_pos hall, if_pos hss]
        have hss' : (scalarKey s1 == scalarKey s0) = true := by
          simp only [beq_iff_eq] at hss ⊢
          omega
        obtain ⟨hne, ranked, h0, h1, tl', hsb, hrank, hw0, hiff1, hiff2⟩ :=
          kickerFallback_spec hok (by
            rw [@List.filter_cons_of_pos _ (fun x => scalarKey x == scalarKey s0) s0 (s1 :: tl)
                (by simp),
              @List.filter_cons_of_pos _ (fun x => scalarKey x == scalarKey s0) s1 tl hss']
            simp)
        exact Or.inr ⟨hne, _, ranked, h0, h1, tl', hpool, hsb, hrank, hw0, hiff1, hiff2⟩
      · rw [if_neg hss] at hok
        simp only [Except.ok.injEq, Prod.mk.injEq] at hok
        refine Or.inl ⟨hok.2.symm, ?_⟩
        simp only [scalarPool, hsort, if_pos hall, if_neg hss]
    · simp only [rankScalarSecondaries, if_neg hall] at hok
      cases hok

/-- C2: the hand ranker's kicker index, read against `kickerPool
hand_list` - the pool of tied hands the ranker actually passes to the
kicker comparison, computed deterministically from the input by
repeating the pipeline stages of `order_hands`: the index is `-2` exactly
when no kicker comparison runs (the pool is `none`); otherwise the winner
is the head of the compared pool re-ordered by kicker points, and against
the runner-up the index is `-1` iff their kicker point sequences agree at
every position of the winner's kicker list, and `i + 1` iff position `i`
(0-based) holds the first disagreement. -/
theorem order_hands_kicker_index (hand_list : List PokerHand) (w : PokerHand) (ki : Int)
    (hok : order_hands hand_list = Except.ok (w, ki)) :
    kickerComparisonSpec (kickerPool hand_list) w ki := by
  rcases hsort : pySorted (fun a b : PokerHand => b.score.1 < a.score.1) hand_list with
    _ | ⟨top, tl⟩
  · simp only [order_hands, hsort] at hok
    cases hok
  · simp only [order_hands, hsort] at hok
    rcases hfil : (top :: tl).filter (fun x => x.score.1 == top.score.1) with _ | ⟨hh0, hhtl⟩
    · rw [hfil] at hok
      cases hok
    · rw [hfil] at hok
      cases hsec : hh0.score.2 with
      | pair a b =>
        simp only [hsec] at hok
        have hpool : kickerPool hand_list = tuplePool (hh0 :: hhtl) := by
          simp only [kickerPool, hsort, hfil, hsec]
        rw [hpool]
        exact rankTupleSecondaries_spec hok
      | scalar n =>
        simp only [hsec] at hok
        have hpool : kickerPool hand_list = scalarPool (hh0 :: hhtl) := by
          simp only [kickerPool, hsort, hfil, hsec]
        rw [hpool]
        exact rankScalarSecondaries_spec hok

theorem order_hands_kicker_index_witness :
    kickerComparisonSpec
      (kickerPool
        [⟨"Ace high", (1, Sec.scalar 14), [⟨1, "club"⟩],
            some [⟨13, "heart"⟩, ⟨7, "spade"⟩, ⟨5, "diamond"⟩, ⟨3, "club"⟩]⟩,
         ⟨"Ace high", (1, Sec.scalar 14), [⟨1, "spade"⟩],
            some [⟨13, "club"⟩, ⟨7, "diamond"⟩, ⟨4, "heart"⟩, ⟨2, "club"⟩]⟩])
      ⟨"Ace high", (1, Sec.scalar 14), [⟨1, "club"⟩],
        some [⟨13, "heart"⟩, ⟨7, "spade"⟩, ⟨5, "diamond"⟩, ⟨3, "club"⟩]⟩ 3 :=
  order_hands_kicker_index
    [⟨"Ace high", (1, Sec.scalar 14), [⟨1, "club"⟩],
        some [⟨13, "heart"⟩, ⟨7, "spade"⟩, ⟨5, "diamond"⟩, ⟨3, "club"⟩]⟩,
     ⟨"Ace high", (1, Sec.scalar 14), [⟨1, "spade"⟩],
        some [⟨13, "club"⟩, ⟨7, "diamond"⟩, ⟨4, "heart"⟩, ⟨2, "club"⟩]⟩]
    ⟨"Ace high", (1, Sec.scalar 14), [⟨1, "club"⟩],
       some [⟨13, "heart"⟩, ⟨7, "spade"⟩, ⟨5, "diamond"⟩, ⟨3, "club"⟩]⟩ 3 (by decide)
